import Mathlib

/-!
Verification of the MelodAI track-processing core against its source.

The Python source is shallowly embedded:

* Python floats are modelled as exact rationals.  To keep every definition
  kernel-computable we use `MelodAI.PyQ`, a non-normalising fraction type
  over `Int`; all constructed values have a positive denominator and all
  comparisons cross-multiply, so `PyQ.beq`, `PyQ.ble`, `PyQ.blt` compare
  values exactly.  Float literals of the source (`0.6`, `-0.5`, ...) become
  the corresponding exact fractions.
* Python dicts with a fixed key set become structures; a key read with
  `dict.get(k)` that may be absent becomes an `Option` field.
* Python lists become `List`, mutation becomes functional update, `while`
  loops whose variant is evident become structural recursion on that
  variant (a fuel argument equal to the variant where necessary; the
  fuel-exhausted branch is unreachable for the executions the theorems talk
  about and is noted at each definition).
* `difflib.SequenceMatcher` is embedded by its documented semantics
  (repeatedly take the longest matching block, earliest in `a` then in `b`;
  autojunk never fires on the short inputs used here).
* `print` calls and socket emissions are side effects outside the model and
  are dropped.
-/

namespace MelodAI

/-! ## Exact model of Python float values -/

/-- Exact fraction value of a Python float.  Not normalised; every
constructor used below keeps `den > 0`, and comparisons cross-multiply. -/
structure PyQ where
  num : Int
  den : Int
deriving Repr, DecidableEq

instance : Add PyQ := ⟨fun a b => ⟨a.num * b.den + b.num * a.den, a.den * b.den⟩⟩

instance : Sub PyQ := ⟨fun a b => ⟨a.num * b.den - b.num * a.den, a.den * b.den⟩⟩

instance : Mul PyQ := ⟨fun a b => ⟨a.num * b.num, a.den * b.den⟩⟩

/-- Value equality (`==` on Python floats). -/
def PyQ.beq (a b : PyQ) : Bool := a.num * b.den = b.num * a.den

/-- Value order (`<=` on Python floats). -/
def PyQ.ble (a b : PyQ) : Bool := a.num * b.den ≤ b.num * a.den

/-- Strict value order (`<` on Python floats). -/
def PyQ.blt (a b : PyQ) : Bool := a.num * b.den < b.num * a.den

/-- Python `max(a, b)`: returns `b` only when `a < b`, so ties keep the
left argument, as CPython does. -/
def pyMax (a b : PyQ) : PyQ := if PyQ.blt a b then b else a

/-- Integer literal as a `PyQ` value. -/
def PyQ.ofInt (n : Int) : PyQ := ⟨n, 1⟩

/-- Python float division `a / b` (callers below never divide by zero). -/
def PyQ.fdiv (a b : PyQ) : PyQ :=
  ⟨a.num * b.den * (if b.num < 0 then -1 else 1), a.den * b.num * (if b.num < 0 then -1 else 1)⟩

/-- Python `round(x, 3)` on an exact value: round half to even at the third
decimal. -/
def pyRound3 (x : PyQ) : PyQ :=
  let n : Int := x.num * 1000
  let d : Int := x.den
  let q : Int := Int.fdiv n d
  let r : Int := n - q * d
  let up : Bool := if 2 * r = d then q % 2 ≠ 0 else decide (2 * r > d)
  ⟨if up then q + 1 else q, 1000⟩

/-- Python `round(x, 4)` on an exact value. -/
def pyRound4 (x : PyQ) : PyQ :=
  let n : Int := x.num * 10000
  let d : Int := x.den
  let q : Int := Int.fdiv n d
  let r : Int := n - q * d
  let up : Bool := if 2 * r = d then q % 2 ≠ 0 else decide (2 * r > d)
  ⟨if up then q + 1 else q, 10000⟩

/-! ## Python string primitives -/

/-- Python `str.strip()` on a character list. -/
def pyStripList (l : List Char) : List Char :=
  ((l.dropWhile Char.isWhitespace).reverse.dropWhile Char.isWhitespace).reverse

/-- Python `str.strip()`. -/
def pyStrip (s : String) : String := String.mk (pyStripList s.toList)

/-- `string.punctuation` from the Python standard library (ASCII
punctuation; the double quote, apostrophe, backquote and braces are given
by code point). -/
def pythonPunctuation : List Char :=
  ['!', Char.ofNat 34, '#', '$', '%', '&', Char.ofNat 39, '(', ')', '*', '+', ',', '-', '.',
   '/', ':', ';', '<', '=', '>', '?', '@', '[', '\\', ']', '^', '_', Char.ofNat 96,
   Char.ofNat 123, '|', Char.ofNat 125, '~']

/-- `_normalize_word` (src/src/utils/helpers.py:48): strip, lowercase,
delete ASCII punctuation. -/
def normalizeWord (s : String) : String :=
  String.mk (((pyStripList s.toList).map Char.toLower).filter (fun c => ¬ (c ∈ pythonPunctuation)))

/-- Python `str.split()` (split on whitespace runs, dropping empty pieces):
worker on the remaining characters and the current word, reversed. -/
def pySplitAux : List Char → List Char → List String
  | [], cur => if cur = [] then [] else [String.mk cur.reverse]
  | c :: rest, cur =>
    if c.isWhitespace then
      if cur = [] then pySplitAux rest [] else String.mk cur.reverse :: pySplitAux rest []
    else pySplitAux rest (c :: cur)

/-- Python `str.split()`. -/
def pySplit (s : String) : List String := pySplitAux s.toList []

/-- Python `" ".join(l)`. -/
def joinSpace (l : List String) : String :=
  String.mk (List.intercalate [' '] (l.map String.toList))

/-- Python `"".join(l)`. -/
def joinEmpty (l : List String) : String := String.mk ((l.map String.toList).flatten)

/-- Python `s.rstrip(string.punctuation)`. -/
def rstripPunct (s : String) : String :=
  String.mk ((s.toList.reverse.dropWhile (fun c => c ∈ pythonPunctuation)).reverse)

/-! ## difflib.SequenceMatcher -/

/-- Length of the common prefix of two character lists. -/
def matchRunLen : List Char → List Char → Nat
  | a :: as, b :: bs => if a = b then matchRunLen as bs + 1 else 0
  | _, _ => 0

/-- Length of the matching run of `a` and `b` starting at positions `i`, `j`. -/
def runLenAt (a b : List Char) (i j : Nat) : Nat := matchRunLen (a.drop i) (b.drop j)

/-- `SequenceMatcher.find_longest_match` on whole sequences: the longest
matching block, earliest in `a`, then earliest in `b` (no junk: autojunk
only fires on sequences of 200+ elements, which never occur here).
Scanning start pairs in lexicographic order with a strict improvement test
selects exactly that block. -/
def findLongestMatch (a b : List Char) : Nat × Nat × Nat :=
  ((List.range a.length).flatMap (fun i => (List.range b.length).map (fun j => (i, j)))).foldl
    (fun best ij =>
      let k := runLenAt a b ij.1 ij.2
      if k > best.2.2 then (ij.1, ij.2, k) else best)
    (0, 0, 0)

/-- Total size of all matching blocks (`get_matching_blocks` recursion:
split around the longest match and recurse on both sides).  The fuel is an
upper bound on the recursion depth; `a.length + b.length` always suffices
because each level strictly shrinks `a`'s slice. -/
def matchingSizeFuel : Nat → List Char → List Char → Nat
  | 0, _, _ => 0
  | fuel + 1, a, b =>
    let m := findLongestMatch a b
    if m.2.2 = 0 then 0
    else
      matchingSizeFuel fuel (a.take m.1) (b.take m.2.1) + m.2.2 +
        matchingSizeFuel fuel (a.drop (m.1 + m.2.2)) (b.drop (m.2.1 + m.2.2))

/-- Total matched size `M` of `SequenceMatcher(None, a, b)`. -/
def matchingSize (a b : List Char) : Nat :=
  matchingSizeFuel (a.length + b.length) a b

/-- `SequenceMatcher(None, a, b).ratio() = 2*M / (len(a)+len(b))`
(1.0 when both are empty, as in difflib). -/
def smRatio (a b : String) : PyQ :=
  let la := a.toList.length
  let lb := b.toList.length
  if la + lb = 0 then ⟨1, 1⟩ else ⟨2 * (matchingSize a.toList b.toList : Int), (la + lb : Int)⟩

/-- `_word_similarity` (helpers.py:233): 1.0 on equality, 0.0 when either
side is empty, else the SequenceMatcher ratio. -/
def wordSimilarity (a b : String) : PyQ :=
  if a = b then ⟨1, 1⟩
  else if a = "" ∨ b = "" then ⟨0, 1⟩
  else smRatio a b

/-! ## Data model -/

instance : Inhabited PyQ := ⟨⟨0, 1⟩⟩

/-- A word entry of WhisperX raw output / processed lyrics.  `Option`
fields model dict keys that may be absent. -/
structure Word where
  word : String := ""
  start : Option PyQ := none
  end_ : Option PyQ := none
  speaker : Option String := none
  score : Option PyQ := none
deriving Repr, DecidableEq

instance : Inhabited Word := ⟨{}⟩

/-- A segment of WhisperX raw output / processed lyrics. -/
structure Segment where
  start : Option PyQ := none
  end_ : Option PyQ := none
  speaker : Option String := none
  words : List Word := []
  text : Option String := none
deriving Repr, DecidableEq

instance : Inhabited Segment := ⟨{}⟩

/-- A provider (reference) lyric token `(normalized, raw_text, line_idx)`
as produced by `_tokenize_provider`. -/
structure ProvTok where
  norm : String := ""
  raw : String := ""
  line : Nat := 0
deriving Repr, DecidableEq

instance : Inhabited ProvTok := ⟨{}⟩

/-- The stats dict returned by `correct_lyrics_with_reference`. -/
structure Stats where
  skipped : Option Bool := none
  reason : Option String := none
  quality : Option PyQ := none
  total_words : Option Nat := none
  applied : Option Bool := none
deriving Repr, DecidableEq

/-- The dict returned by `postprocess_lyrics_heuristic` /
written to `lyrics.json`. -/
structure LyricsOut where
  segments : List Segment := []
  lyrics_source : Option String := none
  avg_confidence : Option PyQ := none
  ref_stats : Option Stats := none
  untimed : Option Bool := none
  plain_lyrics : Option (List String) := none
deriving Repr, DecidableEq

/-- An alignment triple `(asr_idx | None, provider_idx | None, sim)`. -/
abbrev Triple : Type := Option Nat × Option Nat × PyQ

/-! ## helpers.py: merging and splitting -/

/-- Body of the per-word loop shared verbatim by `merge_lyrics`
(helpers.py:16-35) and `_flatten_raw_words` (helpers.py:62-81): skip
blank words, inherit missing times from the segment, round times, default
the speaker. -/
def mergeLyricsWord (seg : Segment) (w : Word) : Option Word :=
  let word_text := pyStrip w.word
  if word_text = "" then none
  else
    let start := w.start.getD (seg.start.getD (PyQ.ofInt 0))
    let endv := w.end_.getD (seg.end_.getD (start + ⟨1, 10⟩))
    some { word := word_text, start := some (pyRound3 start), end_ := some (pyRound3 endv),
           speaker := some (seg.speaker.getD ("SPEAKER_00")), score := w.score }

/-- `merge_lyrics` (helpers.py:6-45) restricted to one segment; `none`
when the segment is skipped. -/
def mergeLyricsSeg (seg : Segment) : Option Segment :=
  if seg.words = [] then none
  else
    let speaker := seg.speaker.getD ("SPEAKER_00")
    let pws := seg.words.filterMap (mergeLyricsWord seg)
    if pws = [] then none
    else some { start := (pws.headD default).start, end_ := (pws.getLastD default).end_,
                words := pws, speaker := some speaker }

/-- `merge_lyrics` (helpers.py:6-45); the returned dict is its
`segments` list. -/
def mergeLyrics (segments : List Segment) : List Segment :=
  segments.filterMap mergeLyricsSeg

/-- `_flatten_raw_words` (helpers.py:53-82). -/
def flattenRawWords (segments : List Segment) : List Word :=
  segments.flatMap (fun seg => seg.words.filterMap (mergeLyricsWord seg))

/-- `_majority_speaker` (helpers.py:85-90).  `Counter.most_common(1)`
returns the first-encountered label of maximal count, which the fold over
first-occurrence-ordered labels with a strict comparison reproduces. -/
def majoritySpeaker (words : List Word) : String :=
  if words = [] then "SPEAKER_00"
  else
    let sps := words.map (fun w => w.speaker.getD ("SPEAKER_00"))
    let uniq := sps.foldl (fun acc s => if s ∈ acc then acc else acc ++ [s]) []
    (uniq.foldl (fun best s =>
      match best with
      | none => some s
      | some b => if sps.count s > sps.count b then some s else best) none).getD ("SPEAKER_00")

/-- `_make_segment` (helpers.py:93-100); callers only pass non-empty word
lists, so the `headD`/`getLastD` defaults are never read. -/
def makeSegment (words : List Word) : Segment :=
  { start := (words.headD default).start, end_ := (words.getLastD default).end_,
    words := words, speaker := some (majoritySpeaker words) }

/-- `words[j].get("start", 0) - words[j-1].get("end", 0)`
(helpers.py:120); the loop below only evaluates it at `1 ≤ j < length`. -/
def gapAt (words : List Word) (j : Nat) : PyQ :=
  ((words.getD j default).start.getD (PyQ.ofInt 0)) -
    ((words.getD (j - 1) default).end_.getD (PyQ.ofInt 0))

/-- The split-point search of `_split_segment_at_gaps`
(helpers.py:112-123): best gap in the middle third, strict improvement,
initial candidate `len // 2` with gap `-1`. -/
def bestSplitOf (words : List Word) : Nat :=
  let third := max 1 (words.length / 3)
  let search_start := max 1 third
  let search_end := min (words.length - 1) (2 * third)
  ((List.range' search_start (search_end - search_start)).foldl
    (fun best j => if PyQ.blt best.2 (gapAt words j) then (j, gapAt words j) else best)
    (words.length / 2, ⟨-1, 1⟩)).1

/-- `_split_segment_at_gaps` (helpers.py:103-129), fuel-indexed: the fuel
bounds the recursion depth.  For `max_words ≥ 1` every split point is
strictly inside the list, so `words.length` fuel always suffices and the
fuel-exhausted branch is unreachable (for `max_words = 0` the Python
original does not terminate). -/
def splitSegmentAtGapsFuel : Nat → List Word → Nat → List (List Word)
  | 0, words, _ => [words]
  | fuel + 1, words, max_words =>
    if words.length ≤ max_words then [words]
    else
      let bs := bestSplitOf words
      splitSegmentAtGapsFuel fuel (words.take bs) max_words ++
        splitSegmentAtGapsFuel fuel (words.drop bs) max_words

/-- `_split_segment_at_gaps` (helpers.py:103-129). -/
def splitSegmentAtGaps (words : List Word) (max_words : Nat) : List (List Word) :=
  splitSegmentAtGapsFuel words.length words max_words

/-- The grouping loop of `_split_at_speaker_changes` (helpers.py:157-166)
on one segment: `cur` is the current group (non-empty at every call from
`splitAtSpeakerChanges`). -/
def speakerGroupsGo : List Word → List Word → List Segment
  | cur, [] => if cur = [] then [] else [makeSegment cur]
  | cur, w :: rest =>
    if w.speaker ≠ (cur.getLastD default).speaker then
      makeSegment cur :: speakerGroupsGo [w] rest
    else speakerGroupsGo (cur ++ [w]) rest

/-- `_split_at_speaker_changes` (helpers.py:149-168). -/
def splitAtSpeakerChanges (segments : List Segment) : List Segment :=
  segments.flatMap (fun seg =>
    match seg.words with
    | [] => []
    | w0 :: rest => speakerGroupsGo [w0] rest)

/-- One pass of the `while changed` body of `_merge_tiny_segments`
(helpers.py:179-217).  `accRev` is `new_result` reversed (so its head is
`new_result[-1]`); returns the rebuilt list and the `changed` flag.  Each
iteration consumes at least one remaining segment, so the remaining
length is the fuel and the fuel-exhausted branch is unreachable. -/
def mergePass (min_words : Nat) (max_gap : PyQ) :
    Nat → List Segment → List Segment → Bool → List Segment × Bool
  | 0, accRev, remaining, changed => (accRev.reverse ++ remaining, changed)
  | _ + 1, accRev, [], changed => (accRev.reverse, changed)
  | fuel + 1, accRev, seg :: rest, changed =>
    let words := seg.words
    if words.length < min_words then
      let tryPrev : Option (List Segment) :=
        match accRev with
        | [] => none
        | prev :: accTail =>
          let prev_words := prev.words
          let gap_to_prev := ((words.headD default).start.getD (PyQ.ofInt 0)) -
            ((prev_words.getLastD default).end_.getD (PyQ.ofInt 0))
          if PyQ.blt gap_to_prev max_gap ∧ prev.speaker = seg.speaker then
            some (makeSegment (prev_words ++ words) :: accTail)
          else none
      match tryPrev with
      | some accRev' => mergePass min_words max_gap fuel accRev' rest true
      | none =>
        match rest with
        | nxt :: rest' =>
          let nxt_words := nxt.words
          let gap_to_next := ((nxt_words.headD default).start.getD (PyQ.ofInt 0)) -
            ((words.getLastD default).end_.getD (PyQ.ofInt 0))
          if PyQ.blt gap_to_next max_gap ∧ nxt.speaker = seg.speaker then
            mergePass min_words max_gap fuel (makeSegment (words ++ nxt_words) :: accRev)
              rest' true
          else mergePass min_words max_gap fuel (seg :: accRev) (nxt :: rest') changed
        | [] => mergePass min_words max_gap fuel (seg :: accRev) [] changed
    else mergePass min_words max_gap fuel (seg :: accRev) rest changed

/-- The `while changed` loop of `_merge_tiny_segments`: every changed pass
strictly shrinks the list, so `segments.length` fuel always suffices and
the fuel-exhausted branch is unreachable. -/
def mergeTinyLoop (min_words : Nat) (max_gap : PyQ) : Nat → List Segment → List Segment
  | 0, segs => segs
  | fuel + 1, segs =>
    let pr := mergePass min_words max_gap segs.length [] segs false
    if pr.2 then mergeTinyLoop min_words max_gap fuel pr.1 else pr.1

/-- `_merge_tiny_segments` (helpers.py:171-219). -/
def mergeTinySegments (segments : List Segment) (min_words : Nat) (max_gap : PyQ) :
    List Segment :=
  if segments.length ≤ 1 then segments
  else mergeTinyLoop min_words max_gap segments.length segments

/-- `_tokenize_provider` (helpers.py:222-230). -/
def tokenizeProvider (ref_lines : List String) : List ProvTok :=
  (ref_lines.enum).flatMap (fun li =>
    (pySplit li.2).filterMap (fun word =>
      let w := pyStrip word
      if w = "" then none else some ⟨normalizeWord w, w, li.1⟩))

/-! ## helpers.py: Needleman-Wunsch alignment (code side) -/

/-- `MATCH_BONUS` (helpers.py:261). -/
def MATCH_BONUS : PyQ := ⟨2, 1⟩

/-- `MISMATCH_PENALTY` (helpers.py:262). -/
def MISMATCH_PENALTY : PyQ := ⟨-1, 1⟩

/-- `GAP_PENALTY` (helpers.py:263). -/
def GAP_PENALTY : PyQ := ⟨-1, 2⟩

/-- Match/substitution cell score (helpers.py:276-279 and 293):
`2·sim` when `sim ≥ 0.6`, else `-1`. -/
def matchScoreOf (sim : PyQ) : PyQ :=
  if PyQ.ble ⟨3, 5⟩ sim then MATCH_BONUS * sim else MISMATCH_PENALTY

/-- Row 0 of the dp matrix (helpers.py:270-271): successive additions of
the gap penalty, starting from `v`. -/
def gapRowFrom (v : PyQ) : Nat → List PyQ
  | 0 => [v]
  | m + 1 => v :: gapRowFrom (v + GAP_PENALTY) m

/-- Inner column loop of the dp fill (helpers.py:273-285) over the
remaining provider tokens: `diag = dp[i-1][j-1]`, `prevRest = dp[i-1][j:]`,
`left = dp[i][j-1]`. -/
def dpRowGo (ai : String) : List String → PyQ → List PyQ → PyQ → List PyQ
  | [], _, _, _ => []
  | bj :: bs, diag, prevRest, left =>
    let up := prevRest.headD ⟨0, 1⟩
    let sim := wordSimilarity ai bj
    let ms := matchScoreOf sim
    let v := pyMax (pyMax (diag + ms) (up + GAP_PENALTY)) (left + GAP_PENALTY)
    v :: dpRowGo ai bs up prevRest.tail v

/-- One dp row: `dp[i][0] = dp[i-1][0] + GAP` (helpers.py:268-269), then
the column loop. -/
def dpNextRow (pn : List String) (prevRow : List PyQ) (ai : String) : List PyQ :=
  let first := prevRow.headD ⟨0, 1⟩ + GAP_PENALTY
  first :: dpRowGo ai pn (prevRow.headD ⟨0, 1⟩) prevRow.tail first

/-- All dp rows, built row by row from row 0. -/
def dpRows (pn : List String) (prev : List PyQ) : List String → List (List PyQ)
  | [] => [prev]
  | ai :: arest => prev :: dpRows pn (dpNextRow pn prev ai) arest

/-- The `(n+1) x (m+1)` score matrix of `_align_provider_tokens`
(helpers.py:265-285). -/
def dpTable (an pn : List String) : List (List PyQ) :=
  dpRows pn (gapRowFrom ⟨0, 1⟩ pn.length) an

/-- `dp[i][j]` (indices produced by the traceback are always in range). -/
def dpGet (dp : List (List PyQ)) (i j : Nat) : PyQ := (dp.getD i []).getD j ⟨0, 1⟩

/-- The traceback loop of `_align_provider_tokens` (helpers.py:287-304),
appending to `acc` (Python `list.append`); the caller reverses the result.
Each iteration decreases `i + j`, so `i + j` fuel is exact and the
fuel-exhausted branch is unreachable.  At `i > 0`, `j = 0` the up-step
condition always holds for tables built by `dpTable` (proved below), so
the `acc` fallback there is unreachable too (Python would index `-1`). -/
def tbGo (an pn : List String) (dp : List (List PyQ)) :
    Nat → Nat → Nat → List Triple → List Triple
  | 0, _, _, acc => acc
  | _ + 1, 0, 0, acc => acc
  | fuel + 1, i + 1, 0, acc =>
    if PyQ.beq (dpGet dp (i + 1) 0) (dpGet dp i 0 + GAP_PENALTY) then
      tbGo an pn dp fuel i 0 (acc ++ [(some i, none, ⟨0, 1⟩)])
    else acc
  | fuel + 1, 0, j + 1, acc => tbGo an pn dp fuel 0 j (acc ++ [(none, some j, ⟨0, 1⟩)])
  | fuel + 1, i + 1, j + 1, acc =>
    let sim := wordSimilarity (an.getD i "") (pn.getD j "")
    let ms := matchScoreOf sim
    if PyQ.beq (dpGet dp (i + 1) (j + 1)) (dpGet dp i j + ms) then
      tbGo an pn dp fuel i j (acc ++ [(some i, some j, sim)])
    else if PyQ.beq (dpGet dp (i + 1) (j + 1)) (dpGet dp i (j + 1) + GAP_PENALTY) then
      tbGo an pn dp fuel i (j + 1) (acc ++ [(some i, none, ⟨0, 1⟩)])
    else
      tbGo an pn dp fuel (i + 1) j (acc ++ [(none, some j, ⟨0, 1⟩)])

/-- `_align_provider_tokens` (helpers.py:243-316): alignment plus quality. -/
def alignProviderTokens (asr_normalized : List String)
    (provider_tokens : List ProvTok) : List Triple × PyQ :=
  let n := asr_normalized.length
  let m := provider_tokens.length
  if n = 0 ∨ m = 0 then ([], ⟨0, 1⟩)
  else
    let provider_normalized := provider_tokens.map (·.norm)
    let dp := dpTable asr_normalized provider_normalized
    let alignment := (tbGo asr_normalized provider_normalized dp (n + m) n m []).reverse
    let matched_pairs := alignment.filter (fun t => t.1.isSome ∧ t.2.1.isSome)
    if matched_pairs = [] then (alignment, ⟨0, 1⟩)
    else
      let good_matches := (matched_pairs.filter (fun t => PyQ.ble ⟨3, 5⟩ t.2.2)).length
      (alignment, PyQ.fdiv ⟨(good_matches : Int), 1⟩ ⟨(max n m : Int), 1⟩)

/-! ## Specification-side Needleman-Wunsch (spec §4.6 Step 5) -/

/-- Specification: the standard Needleman-Wunsch prefix-score recurrence
of the `(n+1) x (m+1)` dp, with match/substitution score `2·sim` when
`sim ≥ 0.6` else `-1`, and gap penalty `-0.5` on either side. -/
def nwScore (an pn : List String) : Nat → Nat → PyQ
  | 0, 0 => ⟨0, 1⟩
  | i + 1, 0 => nwScore an pn i 0 + GAP_PENALTY
  | 0, j + 1 => nwScore an pn 0 j + GAP_PENALTY
  | i + 1, j + 1 =>
    let sim := wordSimilarity (an.getD i "") (pn.getD j "")
    pyMax (pyMax (nwScore an pn i j + matchScoreOf sim)
        (nwScore an pn i (j + 1) + GAP_PENALTY))
      (nwScore an pn (i + 1) j + GAP_PENALTY)
termination_by i j => (i, j)

/-- Specification: the Needleman-Wunsch traceback from cell `(i, j)` with
ties broken in the order diagonal, up, left, emitting the alignment in
forward order. -/
def nwTraceback (an pn : List String) : Nat → Nat → List Triple
  | 0, 0 => []
  | i + 1, 0 => nwTraceback an pn i 0 ++ [(some i, none, ⟨0, 1⟩)]
  | 0, j + 1 => nwTraceback an pn 0 j ++ [(none, some j, ⟨0, 1⟩)]
  | i + 1, j + 1 =>
    let sim := wordSimilarity (an.getD i "") (pn.getD j "")
    if PyQ.beq (nwScore an pn (i + 1) (j + 1)) (nwScore an pn i j + matchScoreOf sim) then
      nwTraceback an pn i j ++ [(some i, some j, sim)]
    else if PyQ.beq (nwScore an pn (i + 1) (j + 1))
        (nwScore an pn i (j + 1) + GAP_PENALTY) then
      nwTraceback an pn i (j + 1) ++ [(some i, none, ⟨0, 1⟩)]
    else nwTraceback an pn (i + 1) j ++ [(none, some j, ⟨0, 1⟩)]
termination_by i j => (i, j)

/-! ## helpers.py: rewrite, fragment removal, line breaks -/

/-- Functional update of a list at one index (Python item assignment);
out-of-range indices leave the list unchanged (Python would raise). -/
def modifyAt : List α → Nat → (α → α) → List α
  | [], _, _ => []
  | x :: r, 0, f => f x :: r
  | x :: r, n + 1, f => x :: modifyAt r n f

/-- Python dict assignment `d[k] = v` on an association list that keeps
insertion order and unique keys. -/
def assocSet : List (Nat × Nat) → Nat → Nat → List (Nat × Nat)
  | [], k, v => [(k, v)]
  | kv :: r, k, v => if kv.1 = k then (k, v) :: r else kv :: assocSet r k v

/-- Python dict lookup `d[k]`. -/
def assocGet : List (Nat × Nat) → Nat → Option Nat
  | [], _ => none
  | kv :: r, k => if kv.1 = k then some kv.2 else assocGet r k

/-- Python `set.add` on a membership list. -/
def insertUnique (l : List Nat) (x : Nat) : List Nat := if x ∈ l then l else l ++ [x]

/-- `_extract_line_breaks_from_alignment` (helpers.py:319-355). -/
def extractLineBreaksFromAlignment (alignment : List Triple)
    (provider_tokens : List ProvTok) (quality : PyQ) : List Nat :=
  if PyQ.blt quality ⟨2, 5⟩ then []
  else
    let asr_to_line := alignment.foldl (fun acc t =>
      match t with
      | (some a, some p, s) =>
        if PyQ.blt s ⟨3, 5⟩ then acc else assocSet acc a (provider_tokens.getD p default).line
      | _ => acc) []
    if asr_to_line = [] then []
    else
      let sorted_asr_indices := List.insertionSort (· ≤ ·) (asr_to_line.map (·.1))
      (sorted_asr_indices.foldl (fun (st : Option Nat × List Nat) a =>
        let cur := (assocGet asr_to_line a).getD 0
        (some cur,
          match st.1 with
          | some p => if cur ≠ p then st.2 ++ [a] else st.2
          | none => st.2)) (none, [])).2

/-- `_context_supports_rewrite` (helpers.py:358-383) at the default
parameters `window=3`, `min_quality=0.55`, `min_ratio=0.6`.  The division
`good / total` is reached only under `total ≥ 2` (Python short-circuit). -/
def contextSupportsRewrite (alignment : List Triple) (align_idx : Nat) (quality : PyQ) :
    Bool :=
  if PyQ.blt quality ⟨11, 20⟩ then false
  else
    let offsets : List Int := [-3, -2, -1, 1, 2, 3]
    let gt := offsets.foldl (fun (gt : Nat × Nat) off =>
      let idx : Int := (align_idx : Int) + off
      if 0 ≤ idx ∧ idx < (alignment.length : Int) then
        match alignment.getD idx.toNat default with
        | (some _, some _, s) => ((if PyQ.ble ⟨3, 5⟩ s then gt.1 + 1 else gt.1), gt.2 + 1)
        | _ => gt
      else gt) (0, 0)
    decide (2 ≤ gt.2) && PyQ.ble ⟨3, 5⟩ (PyQ.fdiv ⟨(gt.1 : Int), 1⟩ ⟨(gt.2 : Int), 1⟩)

/-- The corrected text computation of `_rewrite_with_provider`
(helpers.py:417-435): trailing-punctuation transfer, then the
casing fix-up.  `corrected` is never empty when the provider token is
non-empty; the fallback match arm covers the states where Python would
raise on `corrected[0]`/`original[0]`. -/
def correctedText (original provider_text : String) : String :=
  let asr_stripped := rstripPunct original
  let asr_trailing := String.mk (original.toList.drop asr_stripped.toList.length)
  let prov_stripped := rstripPunct provider_text
  let prov_trailing := String.mk (provider_text.toList.drop prov_stripped.toList.length)
  let corrected :=
    if prov_trailing ≠ "" then provider_text
    else if asr_trailing ≠ "" then prov_stripped ++ asr_trailing
    else prov_stripped
  match corrected.toList, original.toList with
  | c0 :: ctail, o0 :: _ =>
    if c0.isUpper ∧ o0.isLower ∧ ¬ (ctail.headD ' ').isUpper then
      String.mk (c0.toLower :: ctail)
    else corrected
  | _, _ => corrected

/-- The word assignment `raw_segments[seg_idx]["words"][word_idx]["word"]
= corrected` (helpers.py:438), word part. -/
def wordTextUpdate (corrected : String) (w : Word) : Word := { w with word := corrected }

/-- The word assignment of helpers.py:438, segment part. -/
def segWordsUpdate (word_idx : Nat) (corrected : String) (s : Segment) : Segment :=
  { s with words := modifyAt s.words word_idx (wordTextUpdate corrected) }

/-- One iteration of the rewrite loop of `_rewrite_with_provider`
(helpers.py:400-439).  `asr_words` carries the `(seg_idx, word_idx)` map;
the word itself is read from the current segments, as the Python `w`
reference aliases the dict inside `raw_segments`. -/
def rewriteStep (provider_tokens : List ProvTok) (alignment : List Triple) (quality : PyQ)
    (asr_words : List (Nat × Nat)) (segs : List Segment) (align_idx : Nat) (t : Triple) :
    List Segment :=
  match t with
  | (some asr_idx, some prov_idx, sim) =>
    let sw := asr_words.getD asr_idx (0, 0)
    let original := ((segs.getD sw.1 default).words.getD sw.2 default).word
    let provider_text := (provider_tokens.getD prov_idx default).raw
    if PyQ.blt sim ⟨3, 5⟩ ∧ ¬ contextSupportsRewrite alignment align_idx quality then segs
    else
      let corrected := correctedText original provider_text
      if original ≠ corrected then modifyAt segs sw.1 (segWordsUpdate sw.2 corrected)
      else segs
  | _ => segs

/-- `_rewrite_with_provider` (helpers.py:386-450). -/
def rewriteWithProvider (raw_segments : List Segment) (asr_words : List (Nat × Nat))
    (alignment : List Triple) (provider_tokens : List ProvTok) (quality : PyQ) :
    List Segment :=
  if PyQ.blt quality ⟨2, 5⟩ then raw_segments
  else
    let segs := (alignment.enum).foldl
      (fun s it => rewriteStep provider_tokens alignment quality asr_words s it.1 it.2)
      raw_segments
    segs.map (fun seg =>
      if seg.words ≠ [] ∧ seg.text.isSome then
        { seg with text := some (joinSpace (seg.words.map (·.word))) }
      else seg)

/-- The `while i >= 0 and i in gap_indices` collection of
`_remove_compound_fragments` (helpers.py:486-490): the run of gap indices
immediately below `i`, in ascending order. -/
def gapRunBefore (gaps : List Nat) : Nat → List Nat
  | 0 => []
  | i + 1 => if i ∈ gaps then gapRunBefore gaps i ++ [i] else []

/-- Python `del l[i]`; out-of-range indices leave the list unchanged
(Python would raise). -/
def removeAtIdx : List α → Nat → List α
  | [], _ => []
  | _ :: r, 0 => r
  | x :: r, i + 1 => x :: removeAtIdx r i

/-- The `gap_indices` set of `_remove_compound_fragments`
(helpers.py:465-469): ASR indices aligned to a gap. -/
def gapIndicesOf (alignment : List Triple) : List Nat :=
  alignment.foldl (fun acc t =>
    match t with
    | (some a, none, _) => insertUnique acc a
    | _ => acc) []

/-- The `match_map` dict of `_remove_compound_fragments`
(helpers.py:466-471): ASR index to provider index of the aligned pairs. -/
def matchMapOf (alignment : List Triple) : List (Nat × Nat) :=
  alignment.foldl (fun acc t =>
    match t with
    | (some a, some p, _) => assocSet acc a p
    | _ => acc) []

/-- The condition under which `_remove_compound_fragments` marks the gap
run before `asr_idx` for deletion, with the provider index looked up in
`match_map` (the exact chain of guards of helpers.py:475-506). -/
def compoundCondBool (provider_tokens : List ProvTok) (asr_normalized : List String)
    (gaps : List Nat) (match_map : List (Nat × Nat)) (asr_idx : Nat) : Bool :=
  let prov_idx := (assocGet match_map asr_idx).getD 0
  let prov_norm := normalizeWord (provider_tokens.getD prov_idx default).raw
  let matched_norm := asr_normalized.getD asr_idx ""
  let target := if matched_norm.length > prov_norm.length then matched_norm else prov_norm
  if target.length < 8 then false
  else
    let before := gapRunBefore gaps asr_idx
    if before = [] then false
    else
      let root := if matched_norm.length < prov_norm.length then matched_norm else prov_norm
      let concat := joinEmpty (before.map (fun idx => asr_normalized.getD idx "")) ++ root
      if concat.length < root.length + 3 then false
      else PyQ.ble ⟨11, 20⟩ (smRatio concat target)

/-- `_remove_compound_fragments` (helpers.py:453-529): returns the
modified segments and the removed flat indices (`to_remove`; a Python set,
modelled as a duplicate-free list). -/
def removeCompoundFragments (raw_segments : List Segment) (asr_words : List (Nat × Nat))
    (asr_normalized : List String) (alignment : List Triple)
    (provider_tokens : List ProvTok) : List Segment × List Nat :=
  let gap_indices := gapIndicesOf alignment
  let match_map := matchMapOf alignment
  let keys := List.insertionSort (· ≤ ·) (match_map.map (·.1))
  let to_remove := keys.foldl (fun acc asr_idx =>
    if compoundCondBool provider_tokens asr_normalized gap_indices match_map asr_idx then
      (gapRunBefore gap_indices asr_idx).foldl insertUnique acc
    else acc) []
  if to_remove = [] then (raw_segments, [])
  else
    let segs := (raw_segments.enum).map (fun it =>
      let widxs := List.insertionSort (· ≥ ·)
        ((to_remove.filter (fun f => (asr_words.getD f (0, 0)).1 = it.1)).map
          (fun f => (asr_words.getD f (0, 0)).2))
      if widxs = [] then it.2
      else
        let ws := widxs.foldl removeAtIdx it.2.words
        if it.2.text.isSome then
          { it.2 with words := ws, text := some (joinSpace (ws.map (·.word))) }
        else { it.2 with words := ws })
    (segs.filter (fun s => s.words ≠ []), to_remove)

/-- The `to_remove` set of `_remove_compound_fragments` (helpers.py:473-506)
as a standalone function of the alignment data. -/
def toRemoveOf (asr_normalized : List String) (alignment : List Triple)
    (provider_tokens : List ProvTok) : List Nat :=
  (List.insertionSort (· ≤ ·) ((matchMapOf alignment).map (·.1))).foldl (fun acc asr_idx =>
    if compoundCondBool provider_tokens asr_normalized (gapIndicesOf alignment)
        (matchMapOf alignment) asr_idx then
      (gapRunBefore (gapIndicesOf alignment) asr_idx).foldl insertUnique acc
    else acc) []

/-- The per-segment deletion of `_remove_compound_fragments`
(helpers.py:509-521) as a standalone function of the removed set. -/
def codeSegDelete (asr_words : List (Nat × Nat)) (to_remove : List Nat)
    (it : Nat × Segment) : Segment :=
  let widxs := List.insertionSort (· ≥ ·)
    ((to_remove.filter (fun f => (asr_words.getD f (0, 0)).1 = it.1)).map
      (fun f => (asr_words.getD f (0, 0)).2))
  if widxs = [] then it.2
  else
    let ws := widxs.foldl removeAtIdx it.2.words
    if it.2.text.isSome then
      { it.2 with words := ws, text := some (joinSpace (ws.map (·.word))) }
    else { it.2 with words := ws }

/-- `_adjust_line_breaks` (helpers.py:532-544). -/
def adjustLineBreaks (line_breaks : List Nat) (removed_indices : List Nat) : List Nat :=
  if removed_indices = [] then line_breaks
  else
    let removed_sorted := List.insertionSort (· ≤ ·) removed_indices
    line_breaks.foldl (fun adjusted lb =>
      if lb ∈ removed_indices then adjusted
      else adjusted ++ [lb - (removed_sorted.filter (fun r => r < lb)).length]) []

/-- The `asr_words` index map of `correct_lyrics_with_reference`
(helpers.py:566-571): `(seg_idx, word_idx)` of every word whose stripped
text is non-empty. -/
def asrWordsOf (raw_segments : List Segment) : List (Nat × Nat) :=
  (raw_segments.enum).flatMap (fun si =>
    (si.2.words.enum).filterMap (fun wi =>
      if pyStrip wi.2.word = "" then none else some (si.1, wi.1)))

/-- `asr_normalized` of `correct_lyrics_with_reference` (helpers.py:576). -/
def asrNormalizedOf (raw_segments : List Segment) : List String :=
  (asrWordsOf raw_segments).map (fun sw =>
    normalizeWord ((raw_segments.getD sw.1 default).words.getD sw.2 default).word)

/-- `correct_lyrics_with_reference` (helpers.py:547-610). -/
def correctLyricsWithReference (raw_segments : List Segment) (ref_lines : List String) :
    List Segment × List Nat × Stats :=
  if ref_lines = [] then
    (raw_segments, [], { skipped := some true, reason := some ("no_ref_lines") })
  else
    let asr_words := asrWordsOf raw_segments
    if asr_words = [] then
      (raw_segments, [], { skipped := some true, reason := some ("no_asr_words") })
    else
      let asr_normalized := asrNormalizedOf raw_segments
      let provider_tokens := tokenizeProvider ref_lines
      if provider_tokens = [] then
        (raw_segments, [], { skipped := some true, reason := some ("no_provider_tokens") })
      else
        let ar := alignProviderTokens asr_normalized provider_tokens
        let corrected := rewriteWithProvider raw_segments asr_words ar.1 provider_tokens ar.2
        let cr := removeCompoundFragments corrected asr_words asr_normalized ar.1
          provider_tokens
        let line_breaks :=
          adjustLineBreaks (extractLineBreaksFromAlignment ar.1 provider_tokens ar.2) cr.2
        (cr.1, line_breaks,
          { quality := some (pyRound4 ar.2), total_words := some asr_words.length,
            applied := some (PyQ.ble ⟨2, 5⟩ ar.2),
            reason := if PyQ.blt ar.2 ⟨2, 5⟩ then some ("low_quality") else none })

/-! ## helpers.py: karaoke split -/

/-- `_split_at_ref_breaks` (helpers.py:613-635). -/
def splitAtRefBreaks (flat_words : List Word) (line_breaks : List Nat) : List Segment :=
  if flat_words = [] then []
  else
    let st := (flat_words.enum).foldl (fun (st : List Segment × List Word) iw =>
      if iw.1 ∈ line_breaks ∧ st.2 ≠ [] then (st.1 ++ [makeSegment st.2], [iw.2])
      else (st.1, st.2 ++ [iw.2])) ([], [])
    if st.2 ≠ [] then st.1 ++ [makeSegment st.2] else st.1

/-- `avg_confidence` of `postprocess_lyrics_heuristic` (helpers.py:664-671). -/
def avgConfidenceOf (segments : List Segment) : Option PyQ :=
  let all_scores := segments.flatMap (fun seg => seg.words.filterMap (·.score))
  if all_scores = [] then none
  else
    some (pyRound4 (PyQ.fdiv (all_scores.foldl (· + ·) (PyQ.ofInt 0))
      ⟨(all_scores.length : Int), 1⟩))

/-- The reference-guided split passes of `postprocess_lyrics_heuristic`
before the tiny-segment merge (helpers.py:679-694): split at reference
breaks, split at speaker changes, safety-net split of lines over 20
words. -/
def refGuidedSegs (flat_words : List Word) (ref_line_breaks : List Nat) : List Segment :=
  let ref_segs := splitAtSpeakerChanges (splitAtRefBreaks flat_words ref_line_breaks)
  ref_segs.flatMap (fun seg =>
    if seg.words.length ≤ 20 then [seg]
    else (splitSegmentAtGaps seg.words 20).filterMap
      (fun g => if g = [] then none else some (makeSegment g)))

/-- The heuristic-fallback split passes of `postprocess_lyrics_heuristic`
before the tiny-segment merge (helpers.py:706-722): merge, split at
speaker changes, split segments over 8 words. -/
def heuristicSplitSegs (segments : List Segment) : List Segment :=
  let split_segs := splitAtSpeakerChanges (mergeLyrics segments)
  split_segs.flatMap (fun seg =>
    if seg.words.length ≤ 8 then [seg]
    else (splitSegmentAtGaps seg.words 8).filterMap
      (fun g => if g = [] then none else some (makeSegment g)))

/-- `postprocess_lyrics_heuristic` (helpers.py:638-732); the `raw_data`
argument is its segment list. -/
def postprocessLyricsHeuristic (segments : List Segment) (ref_line_breaks : List Nat)
    (ref_stats : Option Stats) : LyricsOut :=
  if segments = [] then { segments := mergeLyrics segments }
  else
    let avg_confidence := avgConfidenceOf segments
    if ref_line_breaks ≠ [] then
      let flat_words := flattenRawWords segments
      if flat_words = [] then { segments := mergeLyrics segments }
      else
        let final_segs := mergeTinySegments (refGuidedSegs flat_words ref_line_breaks) 2 ⟨1, 2⟩
        { segments := final_segs, lyrics_source := some ("reference"),
          avg_confidence := avg_confidence, ref_stats := ref_stats }
    else
      let final_segs := mergeTinySegments (heuristicSplitSegs segments) 2 ⟨1, 2⟩
      { segments := final_segs, lyrics_source := some ("heuristic"),
        avg_confidence := avg_confidence, ref_stats := ref_stats }

/-! ## routes/track.py and utils/file_handling.py -/

/-- The `has_words` probe of `_stage_process_lyrics` (track.py:672-676):
some word has non-empty stripped text. -/
def hasWordsSegs (raw_segments : List Segment) : Bool :=
  raw_segments.any (fun seg => seg.words.any (fun w => pyStrip w.word ≠ ""))

/-- The untimed lyrics document of `_stage_process_lyrics`
(track.py:682-687). -/
def untimedLyricsOut (ref_lines : List String) : LyricsOut :=
  { segments := [], untimed := some true, plain_lyrics := some ref_lines,
    lyrics_source := some ("reference") }

/-- The decision core of `_stage_process_lyrics` (track.py:619-710) on the
path where `lyrics.json` does not exist yet, given the raw segments and
the reference lines available after the fetch attempts (empty when none):
the document written to `lyrics.json`. -/
def stageProcessLyricsCore (raw_segments : List Segment) (ref_lines : List String) :
    LyricsOut :=
  if ¬ hasWordsSegs raw_segments ∧ ref_lines ≠ [] then untimedLyricsOut ref_lines
  else if ref_lines ≠ [] then
    let cr := correctLyricsWithReference raw_segments ref_lines
    postprocessLyricsHeuristic cr.1 cr.2.1 (some cr.2.2)
  else postprocessLyricsHeuristic raw_segments [] none

/-- The `TRACK_FILES` keys required by `is_track_complete`
(file_handling.py:62, constants.py:26-33). -/
def requiredTrackFiles : List String := ["metadata", "song", "vocals", "no_vocals", "lyrics"]

/-- `is_track_complete` (file_handling.py:60-65) over the presence
predicate of the track directory, keyed by `TRACK_FILES` key. -/
def isTrackComplete (hasFile : String → Bool) : Bool :=
  requiredTrackFiles.all hasFile

/-- The file-presence predicate after one artifact is written. -/
def withFile (hasFile : String → Bool) (key : String) : String → Bool :=
  fun k => if k = key then true else hasFile k

/-- Filesystem events of a writer, as visible to a concurrent reader of
the written path. -/
inductive FsOp
  | createTemp (dir tmp : String)
  | writeTo (path : String)
  | rename (src dst : String)
deriving Repr, DecidableEq

/-- `save_metadata` (file_handling.py:25-28): `open(path, "w")` +
`json.dump` writes the content directly to the target path. -/
def saveMetadataOps (dir : String) : List FsOp := [FsOp.writeTo (dir ++ "/metadata.json")]

/-- `save_lyrics` (file_handling.py:39-42): direct write to the target. -/
def saveLyricsOps (dir : String) : List FsOp := [FsOp.writeTo (dir ++ "/lyrics.json")]

/-- `save_lyrics_raw` (file_handling.py:45-48): direct write to the
target. -/
def saveLyricsRawOps (dir : String) : List FsOp := [FsOp.writeTo (dir ++ "/lyrics_raw.json")]

/-- `compress_audio_file` (file_handling.py:95-114), success path:
`tempfile.mkstemp` in the target's directory, ffmpeg writes the temp
file, `shutil.move` (a same-filesystem rename) replaces the target. -/
def compressAudioFileOps (dir name tmp : String) : List FsOp :=
  [FsOp.createTemp dir tmp, FsOp.writeTo tmp, FsOp.rename tmp (dir ++ "/" ++ name)]

/-- A write sequence is atomic from a reader's standpoint iff the target
path is never written directly and receives its content by a rename. -/
def atomicFromReader (ops : List FsOp) (target : String) : Bool :=
  (ops.all (fun op => op != FsOp.writeTo target)) &&
    ops.any (fun op => match op with | FsOp.rename _ dst => dst = target | _ => false)

/-- A Status Registry entry, per spec §4.4.  Modelled from the spec:
`set_processing_status` and `get_processing_status` are imported by
track.py from `utils/status_checks.py`, whose copy under src/ is a stale
revision without them; the registry maps a track to
`{status, progress, detail, updated_at}`, of which `add` reads `status`
and `progress`. -/
structure TrackStatus where
  status : String
  progress : Nat
deriving Repr, DecidableEq

/-- The user row fields consulted by `add` (track.py:93-100). -/
structure UserRec where
  id : Nat
  username : String
  is_admin : Bool
  credits : Option Int
deriving Repr, DecidableEq

/-- The response of the `/api/add` handler. -/
inductive AddResult
  | missingId
  | alreadyProcessing (progress : Nat)
  | ready
  | insufficientCredits (credits : Int) (required : Nat)
  | processing (credits : Option Int)
deriving Repr, DecidableEq

/-- Observable outcome of one `/api/add` call: the response,
the user's credit balance after the call, whether a worker thread was
spawned, and the Status Registry entry written before spawning. -/
structure AddOutcome where
  result : AddResult
  creditsAfter : Option Int
  spawned : Bool
  statusWrite : Option TrackStatus
deriving Repr, DecidableEq

/-- Python `user["credits"] or 0` (track.py:97): `None` and `0` are
falsy, so both give `0`. -/
def pyOrZero : Option Int → Int
  | none => 0
  | some v => if v = 0 then 0 else v

/-- `add` after the already-processing and completeness checks
(track.py:92-126): credit gate, deduction, spawn. -/
def addAfterChecks : Option UserRec → AddOutcome
  | some u =>
    if ¬ u.is_admin then
      if pyOrZero u.credits < 5 then
        { result := .insufficientCredits (pyOrZero u.credits) 5, creditsAfter := u.credits,
          spawned := false, statusWrite := none }
      else
        { result := .processing (u.credits.map (fun c => c - 5)),
          creditsAfter := u.credits.map (fun c => c - 5),
          spawned := true, statusWrite := some ⟨"metadata", 5⟩ }
    else
      { result := .processing none, creditsAfter := u.credits,
        spawned := true, statusWrite := some ⟨"metadata", 5⟩ }
  | none =>
    { result := .processing none, creditsAfter := none,
      spawned := true, statusWrite := some ⟨"metadata", 5⟩ }

/-- The `/api/add` handler `add` (track.py:69-126), abstracted over the
queue entry for the track, the `is_track_complete` probe and the current
user row. -/
def addHandler (track_id : String) (queue_status : Option TrackStatus) (complete : Bool)
    (user : Option UserRec) : AddOutcome :=
  if pyStrip track_id = "" then
    { result := .missingId, creditsAfter := user.bind (·.credits), spawned := false,
      statusWrite := none }
  else
    match queue_status with
    | some s =>
      if s.status ≠ ("complete") ∧ s.status ≠ ("error") then
        { result := .alreadyProcessing s.progress, creditsAfter := user.bind (·.credits),
          spawned := false, statusWrite := none }
      else if complete then
        { result := .ready, creditsAfter := user.bind (·.credits), spawned := false,
          statusWrite := none }
      else addAfterChecks user
    | none =>
      if complete then
        { result := .ready, creditsAfter := user.bind (·.credits), spawned := false,
          statusWrite := none }
      else addAfterChecks user

/-! ## Spec-modelled ASR-health filter (spec §4.6 Step 3, §4.5 S4) -/

/-- The non-empty stripped word tokens of a RawLyrics document. -/
def nonEmptyTokensOf (raw_segments : List Segment) : List String :=
  ((raw_segments.flatMap (·.words)).map (fun w => pyStrip w.word)).filter (· ≠ "")

/-- Modelled from the spec: the ASR-health filter of §4.6 Step 3 with the
`total > 10` threshold of §8.  The function it lives in
(`extract_lyrics_whisperx`) is missing from src/ — the copy of
services/lyrics.py there is a stale revision without it, and only its
caller `_stage_lyrics` (track.py:566-593) remains.  Reject when more than
50% of the non-empty tokens have length at most 1 (and there are more
than 10 tokens), or when reference lyrics exist and the flattened ASR
text has SequenceMatcher ratio below 0.30 against the joined reference. -/
def asrHealthReject (raw_segments : List Segment) (ref_lines : Option (List String)) :
    Bool :=
  let tokens := nonEmptyTokensOf raw_segments
  let total := tokens.length
  let short := (tokens.filter (fun t => t.length ≤ 1)).length
  (decide (total > 10) && decide (2 * short > total)) ||
    (match ref_lines with
     | some ls => PyQ.blt (smRatio (joinSpace tokens) (joinSpace ls)) ⟨3, 10⟩
     | none => false)

/-- Modelled from the spec: the S4 retry ladder (§4.5): run the aligner,
retry up to twice on an unhealthy result (three attempts in all), then
fall back.  `attempts` lists the successive aligner outputs. -/
def stage4Select : Nat → List (List Segment) → Option (List Segment) →
    Option (List String) → Option (List Segment)
  | 0, _, fallback, _ => fallback
  | _ + 1, [], fallback, _ => fallback
  | k + 1, a :: rest, fallback, ref =>
    if asrHealthReject a ref then stage4Select k rest fallback ref else some a

/-- Modelled from the spec: the RawLyrics S4 persists, given the aligner
outputs and the configured generative fallback. -/
def stage4Result (attempts : List (List Segment)) (fallback : Option (List Segment))
    (ref : Option (List String)) : Option (List Segment) :=
  stage4Select 3 attempts fallback ref

/-! ## Specification-side predicates -/

/-- The word at segment `si`, position `wi` (default word when out of
range). -/
def wordAt (segs : List Segment) (si wi : Nat) : Word :=
  (segs.getD si default).words.getD wi default

/-- All fields of a word except its text are equal. -/
def wordFieldsEq (w w' : Word) : Prop :=
  w'.start = w.start ∧ w'.end_ = w.end_ ∧ w'.speaker = w.speaker ∧ w'.score = w.score

/-- Count of aligned pairs (both sides present) with `sim ≥ 0.6`. -/
def goodPairCount (alignment : List Triple) : Nat :=
  (alignment.filter (fun t => t.1.isSome ∧ t.2.1.isSome ∧ PyQ.ble ⟨3, 5⟩ t.2.2)).length

/-- The ASR indices of the aligned (both sides present) triples, in
order. -/
def matchedKeysOf (alignment : List Triple) : List Nat :=
  alignment.filterMap (fun t =>
    match t with
    | (some a, some _, _) => some a
    | _ => none)

/-- Keep the elements whose position satisfies `p`, positions counted
from `n`. -/
def filterIdxGo (p : Nat → Bool) : Nat → List α → List α
  | _, [] => []
  | n, x :: r => if p n then x :: filterIdxGo p (n + 1) r else filterIdxGo p (n + 1) r

/-- Specification of the per-segment deletion of compound fragments: drop
exactly the word positions that some removed flat index maps to, and
rebuild the `text` field of a touched segment that has one. -/
def deleteSpecSeg (asr_words : List (Nat × Nat)) (removed : List Nat)
    (it : Nat × Segment) : Segment :=
  let rem := removed.filter (fun f => (asr_words.getD f (0, 0)).1 = it.1)
  if rem = [] then it.2
  else
    let ws := filterIdxGo
      (fun wi => ! rem.any (fun f => (asr_words.getD f (0, 0)).2 = wi)) 0 it.2.words
    if it.2.text.isSome then
      { it.2 with words := ws, text := some (joinSpace (ws.map (·.word))) }
    else { it.2 with words := ws }

/-- The compound-fragment conditions of spec §4.6 Step 8 at an aligned
pair `(a, p)`: with `target` the longer and `root` the shorter of the
normalized reference word and the normalized ASR word, and `concat` the
joined gap run directly before `a` followed by `root`, require
`len(target) ≥ 8`, a non-empty gap run, `len(concat) ≥ len(root) + 3` and
`SequenceMatcher(concat, target).ratio() ≥ 0.55`. -/
def compoundConditions (provider_tokens : List ProvTok) (asr_normalized : List String)
    (gaps : List Nat) (a p : Nat) : Prop :=
  let prov_norm := normalizeWord (provider_tokens.getD p default).raw
  let matched_norm := asr_normalized.getD a ""
  let target := if matched_norm.length > prov_norm.length then matched_norm else prov_norm
  let root := if matched_norm.length < prov_norm.length then matched_norm else prov_norm
  let run := gapRunBefore gaps a
  let concat := joinEmpty (run.map (fun idx => asr_normalized.getD idx "")) ++ root
  8 ≤ target.length ∧ run ≠ [] ∧ root.length + 3 ≤ concat.length ∧
    PyQ.ble ⟨11, 20⟩ (smRatio concat target) = true

/-! ## Concrete probe inputs -/

/-- A timed word for the concrete probes below. -/
def mkWordT (t : String) (s e d : Int) : Word :=
  { word := t, start := some ⟨s, d⟩, end_ := some ⟨e, d⟩, speaker := some ("SPEAKER_00") }

/-- An eight-word raw segment (one speaker, word `k` spanning
`[k, k+0.5]` seconds). -/
def probeSegA : Segment :=
  { words := [mkWordT ("w1") 0 5 10, mkWordT ("w2") 10 15 10, mkWordT ("w3") 20 25 10,
              mkWordT ("w4") 30 35 10, mkWordT ("w5") 40 45 10, mkWordT ("w6") 50 55 10,
              mkWordT ("w7") 60 65 10, mkWordT ("w8") 70 75 10] }

/-- A one-word raw segment starting 0.3 s after `probeSegA` ends. -/
def probeSegB : Segment := { words := [mkWordT ("w9") 78 80 10] }

/-- A two-word segment whose first word is a fragment of the reference
word of `c4Pt`. -/
def c4Segs : List Segment := [{ words := [{ word := "abcd" }, { word := "efgh" }] }]

/-- The flat index map of `c4Segs`. -/
def c4Aw : List (Nat × Nat) := [(0, 0), (0, 1)]

/-- The normalized ASR words of `c4Segs`. -/
def c4An : List String := ["abcd", "efgh"]

/-- An alignment leaving ASR word 0 unaligned and matching ASR word 1 to
provider token 0. -/
def c4Al : List Triple := [(some 0, none, ⟨0, 1⟩), (some 1, some 0, ⟨1, 1⟩)]

/-- A one-token reference whose token is the concatenation of the two ASR
words. -/
def c4Pt : List ProvTok := [{ norm := "abcdefgh", raw := "abcdefgh", line := 0 }]

/-- Line-break indices before compound-fragment removal. -/
def c4Lbs : List Nat := [0, 2]

/-! ## Lemmas: the gap splitter -/

lemma bestSplit_mem_aux (f : Nat → PyQ) (P : Nat → Prop) :
    ∀ (l : List Nat) (acc : Nat × PyQ), P acc.1 → (∀ j ∈ l, P j) →
      P ((l.foldl (fun best j => if PyQ.blt best.2 (f j) then (j, f j) else best) acc).1) := by
  intro l
  induction l with
  | nil => intro acc h _; exact h
  | cons x xs ih =>
    intro acc hacc hall
    simp only [List.foldl_cons]
    by_cases hc : PyQ.blt acc.2 (f x) = true
    · rw [if_pos hc]
      exact ih (x, f x) (hall x (List.mem_cons_self x xs)) (fun j hj => hall j (List.mem_cons_of_mem x hj))
    · rw [if_neg hc]
      exact ih acc hacc (fun j hj => hall j (List.mem_cons_of_mem x hj))

lemma bestSplitOf_bounds (words : List Word) (h2 : 2 ≤ words.length) :
    0 < bestSplitOf words ∧ bestSplitOf words < words.length := by
  unfold bestSplitOf
  refine bestSplit_mem_aux (gapAt words) (fun j => 0 < j ∧ j < words.length) _ _ ?_ ?_
  · constructor
    · omega
    · omega
  · intro j hj
    rw [List.mem_range'] at hj
    constructor
    · omega
    · omega

lemma splitSegmentAtGapsFuel_props :
    ∀ (fuel : Nat) (words : List Word) (mw : Nat), 1 ≤ mw → words ≠ [] →
      words.length ≤ fuel →
      (splitSegmentAtGapsFuel fuel words mw).flatten = words ∧
        ∀ g ∈ splitSegmentAtGapsFuel fuel words mw, g ≠ [] ∧ g.length ≤ mw := by
  intro fuel
  induction fuel with
  | zero =>
    intro words mw _ h2 h3
    exact absurd (List.eq_nil_of_length_eq_zero (Nat.le_zero.mp h3)) h2
  | succ fuel ih =>
    intro words mw h1 h2 h3
    by_cases hle : words.length ≤ mw
    · constructor
      · simp [splitSegmentAtGapsFuel, hle]
      · intro g hg
        simp only [splitSegmentAtGapsFuel, if_pos hle, List.mem_singleton] at hg
        subst hg
        exact ⟨h2, hle⟩
    · have hlen2 : 2 ≤ words.length := by omega
      obtain ⟨hb0, hbl⟩ := bestSplitOf_bounds words hlen2
      have htake_ne : words.take (bestSplitOf words) ≠ [] := by
        have : (words.take (bestSplitOf words)).length = bestSplitOf words := by
          rw [List.length_take]; omega
        intro hnil
        rw [hnil] at this
        simp at this
        omega
      have hdrop_ne : words.drop (bestSplitOf words) ≠ [] := by
        have : (words.drop (bestSplitOf words)).length = words.length - bestSplitOf words := by
          rw [List.length_drop]
        intro hnil
        rw [hnil] at this
        simp at this
        omega
      have htake_le : (words.take (bestSplitOf words)).length ≤ fuel := by
        rw [List.length_take]; omega
      have hdrop_le : (words.drop (bestSplitOf words)).length ≤ fuel := by
        rw [List.length_drop]; omega
      obtain ⟨ihj1, ihm1⟩ := ih (words.take (bestSplitOf words)) mw h1 htake_ne htake_le
      obtain ⟨ihj2, ihm2⟩ := ih (words.drop (bestSplitOf words)) mw h1 hdrop_ne hdrop_le
      constructor
      · simp only [splitSegmentAtGapsFuel, if_neg hle, List.flatten_append, ihj1, ihj2]
        exact List.take_append_drop _ words
      · intro g hg
        simp only [splitSegmentAtGapsFuel, if_neg hle, List.mem_append] at hg
        cases hg with
        | inl h => exact ihm1 g h
        | inr h => exact ihm2 g h

/-- Claim C10: for every word list and every `max_words ≥ 1`, the
recursive gap splitter `_split_segment_at_gaps` terminates (the embedding
is total, and `words.length` fuel is shown sufficient) and returns a
partition of its input: the returned groups concatenate to the input in
order, every group is non-empty, and every group has at most `max_words`
words. -/
theorem c10_split_segment_partition (words : List Word) (max_words : Nat)
    (h1 : 1 ≤ max_words) (h2 : words ≠ []) :
    (splitSegmentAtGaps words max_words).flatten = words ∧
      (∀ g ∈ splitSegmentAtGaps words max_words, g ≠ []) ∧
      (∀ g ∈ splitSegmentAtGaps words max_words, g.length ≤ max_words) := by
  obtain ⟨hj, hm⟩ := splitSegmentAtGapsFuel_props words.length words max_words h1 h2 (le_refl _)
  exact ⟨hj, fun g hg => (hm g hg).1, fun g hg => (hm g hg).2⟩

/-- Witness for C10 at a concrete two-word input with `max_words = 1`. -/
theorem c10_split_segment_partition_witness :
    (splitSegmentAtGaps [{ word := "a" }, { word := "b" }] 1).flatten =
        [{ word := "a" }, { word := "b" }] ∧
      (∀ g ∈ splitSegmentAtGaps [{ word := "a" }, { word := "b" }] 1, g ≠ []) ∧
      (∀ g ∈ splitSegmentAtGaps [{ word := "a" }, { word := "b" }] 1, g.length ≤ 1) :=
  c10_split_segment_partition [{ word := "a" }, { word := "b" }] 1 (by decide) (by decide)

/-! ## Claim C5: word caps of the karaoke split -/

lemma capSplit_words_le (segs : List Segment) (cap : Nat) (h1 : 1 ≤ cap) :
    ∀ s ∈ segs.flatMap (fun seg =>
      if seg.words.length ≤ cap then [seg]
      else (splitSegmentAtGaps seg.words cap).filterMap
        (fun g => if g = [] then none else some (makeSegment g))),
      s.words.length ≤ cap := by
  intro s hs
  rw [List.mem_flatMap] at hs
  obtain ⟨seg, _, hmem⟩ := hs
  by_cases hle : seg.words.length ≤ cap
  · rw [if_pos hle, List.mem_singleton] at hmem
    subst hmem
    exact hle
  · rw [if_neg hle, List.mem_filterMap] at hmem
    obtain ⟨g, hg, he⟩ := hmem
    by_cases hge : g = []
    · simp [hge] at he
    · rw [if_neg hge, Option.some_inj] at he
      subst he
      have hne : seg.words ≠ [] := by
        intro hnil
        rw [hnil] at hle
        simp at hle
      obtain ⟨_, hm⟩ :=
        splitSegmentAtGapsFuel_props seg.words.length seg.words cap h1 hne (le_refl _)
      exact (hm g hg).2

/-- Counterexample for C5 as stated: in the heuristic-fallback mode, an
eight-word segment followed by a one-word segment of the same speaker
0.3 s later yields a final segment of 9 > 8 words, because the
tiny-segment merge pass runs after the 8-word split pass. -/
theorem c5_counterexample :
    ¬ (∀ s ∈ (postprocessLyricsHeuristic [probeSegA, probeSegB] [] none).segments,
        s.words.length ≤ 8) := by decide

/-- Claim C5, amended: every segment produced by the split passes of
`postprocess_lyrics_heuristic` *before* the tiny-segment merge pass has at
most 8 words (heuristic fallback) respectively 20 words
(reference-guided); the merge pass may then exceed the cap by absorbing
adjacent segments of fewer than 2 words. -/
theorem c5_caps_before_tiny_merge :
    (∀ (segments : List Segment), ∀ s ∈ heuristicSplitSegs segments, s.words.length ≤ 8) ∧
      (∀ (flat_words : List Word) (ref_line_breaks : List Nat),
        ∀ s ∈ refGuidedSegs flat_words ref_line_breaks, s.words.length ≤ 20) := by
  constructor
  · intro segments s hs
    exact capSplit_words_le (splitAtSpeakerChanges (mergeLyrics segments)) 8 (by omega) s hs
  · intro flat_words ref_line_breaks s hs
    exact capSplit_words_le
      (splitAtSpeakerChanges (splitAtRefBreaks flat_words ref_line_breaks)) 20 (by omega) s hs

/-! ## Claim C7: atomicity of the file writes -/

/-- Counterexample for C7 as stated: `save_metadata` (and likewise
`save_lyrics`, `save_lyrics_raw`) writes the target file directly with
`open(path, "w")`, so not every core file write goes through a temp path
and a rename. -/
theorem c7_counterexample :
    ¬ (atomicFromReader (saveMetadataOps (".")) ("./metadata.json") = true ∧
        atomicFromReader (saveLyricsRawOps (".")) ("./lyrics_raw.json") = true ∧
        atomicFromReader (saveLyricsOps (".")) ("./lyrics.json") = true ∧
        atomicFromReader (compressAudioFileOps (".") ("vocals.mp3") ("./tmpabc.mp3"))
          ("./vocals.mp3") = true) := by decide

/-- Claim C7, amended: only the audio re-encode (`compress_audio_file`)
is atomic from a reader's standpoint — temp sibling plus rename; the JSON
writers `save_metadata`, `save_lyrics` and `save_lyrics_raw` open the
target path directly and write it in place. -/
theorem c7_only_audio_reencode_atomic (dir name tmp : String)
    (h : tmp ≠ dir ++ "/" ++ name) :
    atomicFromReader (compressAudioFileOps dir name tmp) (dir ++ "/" ++ name) = true ∧
      atomicFromReader (saveMetadataOps dir) (dir ++ "/metadata.json") = false ∧
      atomicFromReader (saveLyricsOps dir) (dir ++ "/lyrics.json") = false ∧
      atomicFromReader (saveLyricsRawOps dir) (dir ++ "/lyrics_raw.json") = false := by
  refine ⟨?_, ?_, ?_, ?_⟩ <;>
    simp [atomicFromReader, compressAudioFileOps, saveMetadataOps, saveLyricsOps,
      saveLyricsRawOps, h]

/-- Witness for the amended C7 at concrete paths. -/
theorem c7_only_audio_reencode_atomic_witness :
    atomicFromReader (compressAudioFileOps (".") ("vocals.mp3") ("./tmpabc.mp3"))
        ("./vocals.mp3") = true ∧
      atomicFromReader (saveMetadataOps (".")) ("./metadata.json") = false ∧
      atomicFromReader (saveLyricsOps (".")) ("./lyrics.json") = false ∧
      atomicFromReader (saveLyricsRawOps (".")) ("./lyrics_raw.json") = false :=
  c7_only_audio_reencode_atomic (".") ("vocals.mp3") ("./tmpabc.mp3") (by decide)

/-! ## Claim C9: the credit gate of the add handler -/

/-- Claim C9: a non-admin user with fewer than 5 credits calling `add`
for a track that is neither complete nor currently processing gets the
`insufficient_credits` failure, their balance is unchanged, no worker
thread is spawned, and nothing is written to the Status Registry. -/
theorem c9_insufficient_credits (track_id : String) (queue_status : Option TrackStatus)
    (u : UserRec)
    (hid : pyStrip track_id ≠ "")
    (hterm : ∀ s, queue_status = some s → s.status = ("complete") ∨ s.status = ("error"))
    (hadmin : u.is_admin = false)
    (hcred : pyOrZero u.credits < 5) :
    addHandler track_id queue_status false (some u) =
      { result := .insufficientCredits (pyOrZero u.credits) 5, creditsAfter := u.credits,
        spawned := false, statusWrite := none } := by
  have hAC : addAfterChecks (some u) =
      { result := .insufficientCredits (pyOrZero u.credits) 5, creditsAfter := u.credits,
        spawned := false, statusWrite := none } := by
    simp only [addAfterChecks]
    rw [if_pos (by simp [hadmin]), if_pos hcred]
  cases queue_status with
  | none =>
    simp only [addHandler]
    rw [if_neg hid, if_neg (by simp)]
    exact hAC
  | some s =>
    simp only [addHandler]
    rw [if_neg hid]
    rcases hterm s rfl with h | h <;> rw [if_neg (by simp [h]), if_neg (by simp)] <;> exact hAC

/-- Witness for C9: user with 4 credits, empty queue entry, incomplete
track. -/
theorem c9_insufficient_credits_witness :
    addHandler ("42") none false
        (some { id := 1, username := "u", is_admin := false, credits := some 4 }) =
      { result := .insufficientCredits 4 5, creditsAfter := some 4, spawned := false,
        statusWrite := none } :=
  c9_insufficient_credits ("42") none
    { id := 1, username := "u", is_admin := false, credits := some 4 }
    (by decide) (fun s h => Option.noConfusion h) (by decide) (by decide)

/-! ## Claim C6: untimed lyrics fallback of Stage 5 -/

/-- Claim C6: when the ASR output has zero non-empty words but reference
lines are available, Stage 5 skips alignment and writes the untimed
document `{segments: [], untimed: true, plain_lyrics: ref_lines,
lyrics_source: "reference"}` to `lyrics.json`; with the other four
artifacts present, the track then counts as complete. -/
theorem c6_untimed_lyrics (raw_segments : List Segment) (ref_lines : List String)
    (hasFile : String → Bool)
    (h1 : hasWordsSegs raw_segments = false)
    (h2 : ref_lines ≠ [])
    (hm : hasFile ("metadata") = true) (hs : hasFile ("song") = true)
    (hv : hasFile ("vocals") = true) (hn : hasFile ("no_vocals") = true) :
    stageProcessLyricsCore raw_segments ref_lines =
      { segments := [], untimed := some true, plain_lyrics := some ref_lines,
        lyrics_source := some ("reference") } ∧
      isTrackComplete (withFile hasFile ("lyrics")) = true := by
  constructor
  · simp only [stageProcessLyricsCore]
    rw [if_pos ⟨by simp [h1], h2⟩]
    rfl
  · simp [isTrackComplete, requiredTrackFiles, withFile, hm, hs, hv, hn]

/-- Witness for C6: one blank-word segment, one reference line, all other
artifacts present. -/
theorem c6_untimed_lyrics_witness :
    stageProcessLyricsCore [{ words := [{ word := " " }] }] ["la la"] =
      { segments := [], untimed := some true, plain_lyrics := some ["la la"],
        lyrics_source := some ("reference") } ∧
      isTrackComplete (withFile (fun _ => true) ("lyrics")) = true :=
  c6_untimed_lyrics [{ words := [{ word := " " }] }] ["la la"] (fun _ => true)
    (by decide) (by decide) rfl rfl rfl rfl

/-! ## Claim C8: the ASR-health filter (spec-modelled) -/

/-- Claim C8: the ASR-health filter rejects exactly when more than 50% of
the non-empty tokens have length at most 1 and there are more than 10
tokens (so exactly 10 single-character tokens are not rejected, while
11 of 11 are), or when reference lyrics exist and the SequenceMatcher
ratio of the flattened ASR text against the joined reference is below
0.30; a rejected attempt is discarded by the Stage-4 ladder, which moves
on to the next attempt or the fallback. -/
theorem c8_asr_health_filter :
    (∀ (raw_segments : List Segment) (ref : Option (List String)),
        asrHealthReject raw_segments ref = true ↔
          (10 < (nonEmptyTokensOf raw_segments).length ∧
            (nonEmptyTokensOf raw_segments).length <
              2 * ((nonEmptyTokensOf raw_segments).filter (fun t => t.length ≤ 1)).length) ∨
          ∃ ls, ref = some ls ∧
            PyQ.blt (smRatio (joinSpace (nonEmptyTokensOf raw_segments)) (joinSpace ls))
              ⟨3, 10⟩ = true) ∧
      asrHealthReject [{ words := List.replicate 10 { word := "a" } }] none = false ∧
      asrHealthReject [{ words := List.replicate 11 { word := "a" } }] none = true ∧
      ∀ (a : List Segment) (rest : List (List Segment)) (fb : Option (List Segment))
        (ref : Option (List String)) (k : Nat),
        asrHealthReject a ref = true →
          stage4Select (k + 1) (a :: rest) fb ref = stage4Select k rest fb ref := by
  refine ⟨?_, by decide, by decide, ?_⟩
  · intro segs ref
    cases ref with
    | none => simp [asrHealthReject]
    | some ls => simp [asrHealthReject]
  · intro a rest fb ref k h
    simp only [stage4Select]
    rw [if_pos h]

/-! ## Lemmas: PyQ comparisons -/

lemma PyQ.beq_refl (a : PyQ) : PyQ.beq a a = true := by simp [PyQ.beq]

lemma PyQ.ble_false_of_blt (a b : PyQ) (h : PyQ.blt a b = true) : PyQ.ble b a = false := by
  simp only [PyQ.blt, decide_eq_true_eq] at h
  simp only [PyQ.ble, decide_eq_false_iff_not]
  omega

/-! ## Claim C3: the rewrite changes only word texts -/

lemma wordFieldsEq_refl (w : Word) : wordFieldsEq w w := ⟨rfl, rfl, rfl, rfl⟩

lemma wordFieldsEq_trans {a b c : Word} (h1 : wordFieldsEq a b) (h2 : wordFieldsEq b c) :
    wordFieldsEq a c :=
  ⟨h2.1.trans h1.1, h2.2.1.trans h1.2.1, h2.2.2.1.trans h1.2.2.1, h2.2.2.2.trans h1.2.2.2⟩

lemma modifyAt_getD_wordFields (g : Word → Word) (hg : ∀ w, wordFieldsEq w (g w)) :
    ∀ (l : List Word) (n i : Nat),
      wordFieldsEq (l.getD i default) ((modifyAt l n g).getD i default) := by
  intro l
  induction l with
  | nil => intro n i; exact wordFieldsEq_refl _
  | cons x r ih =>
    intro n i
    cases n with
    | zero =>
      cases i with
      | zero => exact hg x
      | succ i => exact wordFieldsEq_refl _
    | succ n =>
      cases i with
      | zero => exact wordFieldsEq_refl _
      | succ i => exact ih n i

lemma modifyAt_seg_wordAt (F : Segment → Segment)
    (hF : ∀ s wi, wordFieldsEq (s.words.getD wi default) ((F s).words.getD wi default)) :
    ∀ (segs : List Segment) (n si wi : Nat),
      wordFieldsEq (wordAt segs si wi) (wordAt (modifyAt segs n F) si wi) := by
  intro segs
  induction segs with
  | nil => intro n si wi; exact wordFieldsEq_refl _
  | cons x r ih =>
    intro n si wi
    cases n with
    | zero =>
      cases si with
      | zero => exact hF x wi
      | succ si => exact wordFieldsEq_refl _
    | succ n =>
      cases si with
      | zero => exact wordFieldsEq_refl _
      | succ si => exact ih n si wi

lemma modifySegWords_wordAt (segs : List Segment) (n k : Nat) (c : String) (si wi : Nat) :
    wordFieldsEq (wordAt segs si wi)
      (wordAt (modifyAt segs n (segWordsUpdate k c)) si wi) :=
  modifyAt_seg_wordAt _
    (fun sg wj =>
      modifyAt_getD_wordFields (wordTextUpdate c) (fun _ => ⟨rfl, rfl, rfl, rfl⟩) sg.words k wj)
    segs n si wi

lemma rewriteStep_preserves (provider_tokens : List ProvTok) (alignment : List Triple)
    (quality : PyQ) (asr_words : List (Nat × Nat)) (segs : List Segment)
    (align_idx : Nat) (t : Triple) (si wi : Nat) :
    wordFieldsEq (wordAt segs si wi)
      (wordAt (rewriteStep provider_tokens alignment quality asr_words segs align_idx t)
        si wi) := by
  obtain ⟨o1, o2, s⟩ := t
  cases o1 with
  | none => exact wordFieldsEq_refl _
  | some a =>
    cases o2 with
    | none => exact wordFieldsEq_refl _
    | some p =>
      simp only [rewriteStep]
      split
      · exact wordFieldsEq_refl _
      · split
        · exact modifySegWords_wordAt segs _ _ _ si wi
        · exact wordFieldsEq_refl _

lemma rewriteFold_preserves (provider_tokens : List ProvTok) (alignment : List Triple)
    (quality : PyQ) (asr_words : List (Nat × Nat)) (si wi : Nat) :
    ∀ (l : List (Nat × Triple)) (segs : List Segment),
      wordFieldsEq (wordAt segs si wi)
        (wordAt (l.foldl (fun s it =>
          rewriteStep provider_tokens alignment quality asr_words s it.1 it.2) segs)
          si wi) := by
  intro l
  induction l with
  | nil => intro segs; exact wordFieldsEq_refl _
  | cons x r ih =>
    intro segs
    exact wordFieldsEq_trans
      (rewriteStep_preserves provider_tokens alignment quality asr_words segs x.1 x.2 si wi)
      (ih _)

lemma map_words_id_wordAt (H : Segment → Segment) (h : ∀ s, (H s).words = s.words) :
    ∀ (l : List Segment) (si wi : Nat), wordAt (l.map H) si wi = wordAt l si wi := by
  intro l
  induction l with
  | nil => intro si wi; rfl
  | cons x r ih =>
    intro si wi
    cases si with
    | zero => simp only [wordAt, List.map_cons, List.getD_cons_zero, h]
    | succ si => simpa only [wordAt, List.map_cons, List.getD_cons_succ] using ih si wi

/-- Claim C3: the rewrite step changes at most the text of a word — for
every position, the word's `start`, `end`, `speaker` and `score` after
`_rewrite_with_provider` equal those before (which covers in particular
every rewritten aligned pair). -/
theorem c3_rewrite_preserves_fields (raw_segments : List Segment)
    (asr_words : List (Nat × Nat)) (alignment : List Triple)
    (provider_tokens : List ProvTok) (quality : PyQ) (si wi : Nat) :
    wordFieldsEq (wordAt raw_segments si wi)
      (wordAt (rewriteWithProvider raw_segments asr_words alignment provider_tokens quality)
        si wi) := by
  unfold rewriteWithProvider
  by_cases hq : PyQ.blt quality ⟨2, 5⟩ = true
  · rw [if_pos hq]
    exact wordFieldsEq_refl _
  · rw [if_neg hq]
    have hmap := map_words_id_wordAt
      (fun seg => if seg.words ≠ [] ∧ seg.text.isSome then
        { seg with text := some (joinSpace (seg.words.map (·.word))) } else seg)
      (fun s => by
        dsimp only
        split <;> rfl)
    rw [hmap]
    exact rewriteFold_preserves provider_tokens alignment quality asr_words si wi _ _

/-! ## Claim C2: the quality score and its threshold -/

lemma adjustLineBreaks_nil (removed : List Nat) : adjustLineBreaks [] removed = [] := by
  unfold adjustLineBreaks
  split <;> rfl

/-- `correct_lyrics_with_reference` on the non-skip path, written out. -/
lemma correctLyrics_eq (raw_segments : List Segment) (ref_lines : List String)
    (h1 : ref_lines ≠ []) (h2 : asrWordsOf raw_segments ≠ [])
    (h3 : tokenizeProvider ref_lines ≠ []) :
    correctLyricsWithReference raw_segments ref_lines =
      ((removeCompoundFragments
          (rewriteWithProvider raw_segments (asrWordsOf raw_segments)
            (alignProviderTokens (asrNormalizedOf raw_segments) (tokenizeProvider ref_lines)).1
            (tokenizeProvider ref_lines)
            (alignProviderTokens (asrNormalizedOf raw_segments) (tokenizeProvider ref_lines)).2)
          (asrWordsOf raw_segments) (asrNormalizedOf raw_segments)
          (alignProviderTokens (asrNormalizedOf raw_segments) (tokenizeProvider ref_lines)).1
          (tokenizeProvider ref_lines)).1,
        adjustLineBreaks
          (extractLineBreaksFromAlignment
            (alignProviderTokens (asrNormalizedOf raw_segments) (tokenizeProvider ref_lines)).1
            (tokenizeProvider ref_lines)
            (alignProviderTokens (asrNormalizedOf raw_segments) (tokenizeProvider ref_lines)).2)
          (removeCompoundFragments
            (rewriteWithProvider raw_segments (asrWordsOf raw_segments)
              (alignProviderTokens (asrNormalizedOf raw_segments)
                (tokenizeProvider ref_lines)).1
              (tokenizeProvider ref_lines)
              (alignProviderTokens (asrNormalizedOf raw_segments)
                (tokenizeProvider ref_lines)).2)
            (asrWordsOf raw_segments) (asrNormalizedOf raw_segments)
            (alignProviderTokens (asrNormalizedOf raw_segments)
              (tokenizeProvider ref_lines)).1
            (tokenizeProvider ref_lines)).2,
        { quality := some (pyRound4
            (alignProviderTokens (asrNormalizedOf raw_segments)
              (tokenizeProvider ref_lines)).2),
          total_words := some (asrWordsOf raw_segments).length,
          applied := some (PyQ.ble ⟨2, 5⟩
            (alignProviderTokens (asrNormalizedOf raw_segments)
              (tokenizeProvider ref_lines)).2),
          reason := if PyQ.blt
              (alignProviderTokens (asrNormalizedOf raw_segments)
                (tokenizeProvider ref_lines)).2 ⟨2, 5⟩ then some ("low_quality")
            else none }) := by
  unfold correctLyricsWithReference
  rw [if_neg h1, if_neg h2, if_neg h3]

lemma alignQuality_formula (an : List String) (pt : List ProvTok)
    (hn : an.length ≠ 0) (hm : pt.length ≠ 0) :
    PyQ.beq (alignProviderTokens an pt).2
      (PyQ.fdiv ⟨(goodPairCount (alignProviderTokens an pt).1 : Int), 1⟩
        ⟨(max an.length pt.length : Int), 1⟩) = true := by
  unfold alignProviderTokens
  rw [if_neg (by omega : ¬ (an.length = 0 ∨ pt.length = 0))]
  dsimp only
  set A := (tbGo an (pt.map (·.norm)) (dpTable an (pt.map (·.norm)))
    (an.length + pt.length) an.length pt.length []).reverse with hA
  by_cases hmt : A.filter (fun t => t.1.isSome ∧ t.2.1.isSome) = []
  · rw [if_pos hmt]
    dsimp only
    have hgood : goodPairCount A = 0 := by
      unfold goodPairCount
      rw [List.filter_eq_nil_iff] at hmt
      rw [List.length_eq_zero, List.filter_eq_nil_iff]
      intro t ht hdec
      refine hmt t ht ?_
      simp only [decide_eq_true_eq] at hdec ⊢
      exact ⟨hdec.1, hdec.2.1⟩
    rw [hgood]
    simp [PyQ.beq, PyQ.fdiv]
  · rw [if_neg hmt]
    dsimp only
    have hgood : goodPairCount A =
        ((A.filter (fun t => t.1.isSome ∧ t.2.1.isSome)).filter
          (fun t => PyQ.ble ⟨3, 5⟩ t.2.2)).length := by
      unfold goodPairCount
      rw [List.filter_filter]
      congr 1
      apply List.filter_congr
      intro t _
      simp [Bool.and_comm, Bool.and_assoc, and_assoc]
    rw [← hgood]
    exact PyQ.beq_refl _

/-- Claim C2: the alignment quality equals the number of aligned pairs
with `sim ≥ 0.6` divided by `max(n, m)`; whenever it is below 0.4 the
correction is skipped — the rewrite returns the segments unchanged, the
extracted line-break list is empty (also after adjustment), and the stats
carry `applied = false` with reason `"low_quality"`; at quality at least
0.4 (in particular exactly 0.4) the stats carry `applied = true`. -/
theorem c2_quality_and_threshold (raw_segments : List Segment) (ref_lines : List String)
    (h1 : ref_lines ≠ []) (h2 : asrWordsOf raw_segments ≠ [])
    (h3 : tokenizeProvider ref_lines ≠ []) :
    PyQ.beq
        (alignProviderTokens (asrNormalizedOf raw_segments) (tokenizeProvider ref_lines)).2
        (PyQ.fdiv
          ⟨(goodPairCount (alignProviderTokens (asrNormalizedOf raw_segments)
              (tokenizeProvider ref_lines)).1 : Int), 1⟩
          ⟨(max (asrNormalizedOf raw_segments).length
              (tokenizeProvider ref_lines).length : Int), 1⟩) = true ∧
      (PyQ.blt (alignProviderTokens (asrNormalizedOf raw_segments)
          (tokenizeProvider ref_lines)).2 ⟨2, 5⟩ = true →
        rewriteWithProvider raw_segments (asrWordsOf raw_segments)
            (alignProviderTokens (asrNormalizedOf raw_segments)
              (tokenizeProvider ref_lines)).1
            (tokenizeProvider ref_lines)
            (alignProviderTokens (asrNormalizedOf raw_segments)
              (tokenizeProvider ref_lines)).2 = raw_segments ∧
          extractLineBreaksFromAlignment
            (alignProviderTokens (asrNormalizedOf raw_segments)
              (tokenizeProvider ref_lines)).1
            (tokenizeProvider ref_lines)
            (alignProviderTokens (asrNormalizedOf raw_segments)
              (tokenizeProvider ref_lines)).2 = [] ∧
          (correctLyricsWithReference raw_segments ref_lines).2.1 = [] ∧
          (correctLyricsWithReference raw_segments ref_lines).2.2.applied = some false ∧
          (correctLyricsWithReference raw_segments ref_lines).2.2.reason =
            some ("low_quality")) ∧
      (PyQ.ble ⟨2, 5⟩ (alignProviderTokens (asrNormalizedOf raw_segments)
          (tokenizeProvider ref_lines)).2 = true →
        (correctLyricsWithReference raw_segments ref_lines).2.2.applied = some true) := by
  have hce := correctLyrics_eq raw_segments ref_lines h1 h2 h3
  refine ⟨?_, ?_, ?_⟩
  · -- the quality formula
    have hn : (asrNormalizedOf raw_segments).length ≠ 0 := by
      unfold asrNormalizedOf
      rw [List.length_map]
      intro h
      exact h2 (List.eq_nil_of_length_eq_zero h)
    have hm : (tokenizeProvider ref_lines).length ≠ 0 := by
      intro h
      exact h3 (List.eq_nil_of_length_eq_zero h)
    exact alignQuality_formula _ _ hn hm
  · -- quality below 0.4: everything skipped
    intro hq
    refine ⟨?_, ?_, ?_, ?_, ?_⟩
    · unfold rewriteWithProvider
      rw [if_pos hq]
    · unfold extractLineBreaksFromAlignment
      rw [if_pos hq]
    · rw [hce]
      simp only
      unfold extractLineBreaksFromAlignment
      rw [if_pos hq]
      exact adjustLineBreaks_nil _
    · rw [hce]
      simp only
      rw [PyQ.ble_false_of_blt _ _ hq]
    · rw [hce]
      simp only
      rw [if_pos hq]
  · -- quality at least 0.4: applied
    intro hq
    rw [hce]
    simp only
    rw [hq]

/-! ## Lemmas: sets, dicts and position deletion for C4 -/

lemma mem_insertUnique (acc : List Nat) (y x : Nat) :
    x ∈ insertUnique acc y ↔ x ∈ acc ∨ x = y := by
  unfold insertUnique
  split
  · constructor
    · exact Or.inl
    · rintro (h | rfl)
      · exact h
      · assumption
  · simp [List.mem_append]

lemma mem_foldl_insertUnique (l : List Nat) :
    ∀ (acc : List Nat) (x : Nat), x ∈ l.foldl insertUnique acc ↔ x ∈ acc ∨ x ∈ l := by
  induction l with
  | nil => intro acc x; simp
  | cons y ys ih =>
    intro acc x
    rw [List.foldl_cons, ih, mem_insertUnique]
    simp only [List.mem_cons]
    tauto

lemma nodup_insertUnique (acc : List Nat) (y : Nat) (h : acc.Nodup) :
    (insertUnique acc y).Nodup := by
  unfold insertUnique
  split
  · exact h
  · rename_i hy
    simp [List.nodup_append, h, hy]

lemma nodup_foldl_insertUnique (l : List Nat) :
    ∀ (acc : List Nat), acc.Nodup → (l.foldl insertUnique acc).Nodup := by
  induction l with
  | nil => intro acc h; exact h
  | cons y ys ih => intro acc h; exact ih _ (nodup_insertUnique acc y h)

lemma mem_gapIndicesOf_aux (ts : List Triple) :
    ∀ (acc : List Nat) (g : Nat),
      (g ∈ ts.foldl (fun acc t =>
        match t with
        | (some a, none, _) => insertUnique acc a
        | _ => acc) acc) ↔ g ∈ acc ∨ ∃ s, ((some g, none, s) : Triple) ∈ ts := by
  induction ts with
  | nil => intro acc g; simp
  | cons t ts ih =>
    intro acc g
    obtain ⟨o1, o2, s0⟩ := t
    rw [List.foldl_cons]
    cases o1 with
    | none =>
      rw [ih]
      simp only [List.mem_cons, Prod.mk.injEq]
      aesop
    | some a =>
      cases o2 with
      | none =>
        rw [ih, mem_insertUnique]
        simp only [List.mem_cons, Prod.mk.injEq, Option.some.injEq]
        aesop
      | some p =>
        rw [ih]
        simp only [List.mem_cons, Prod.mk.injEq]
        aesop

lemma mem_gapIndicesOf (alignment : List Triple) (g : Nat) :
    g ∈ gapIndicesOf alignment ↔ ∃ s, ((some g, none, s) : Triple) ∈ alignment := by
  unfold gapIndicesOf
  rw [mem_gapIndicesOf_aux]
  simp

lemma assocGet_assocSet_self (l : List (Nat × Nat)) (k v : Nat) :
    assocGet (assocSet l k v) k = some v := by
  induction l with
  | nil => simp [assocSet, assocGet]
  | cons kv r ih =>
    unfold assocSet
    by_cases h : kv.1 = k
    · rw [if_pos h]
      simp [assocGet]
    · rw [if_neg h]
      unfold assocGet
      rw [if_neg h]
      exact ih

lemma assocGet_assocSet_ne (l : List (Nat × Nat)) (k v a : Nat) (h : ¬ k = a) :
    assocGet (assocSet l k v) a = assocGet l a := by
  induction l with
  | nil => simp [assocSet, assocGet, h]
  | cons kv r ih =>
    unfold assocSet
    by_cases hk : kv.1 = k
    · rw [if_pos hk]
      unfold assocGet
      rw [if_neg h, if_neg (hk ▸ h)]
    · rw [if_neg hk]
      unfold assocGet
      by_cases ha : kv.1 = a
      · rw [if_pos ha, if_pos ha]
      · rw [if_neg ha, if_neg ha]
        exact ih

lemma mem_keys_assocSet (l : List (Nat × Nat)) (k v a : Nat) :
    a ∈ (assocSet l k v).map (·.1) ↔ a ∈ l.map (·.1) ∨ a = k := by
  induction l with
  | nil => simp [assocSet]
  | cons kv r ih =>
    unfold assocSet
    by_cases h : kv.1 = k
    · rw [if_pos h]
      simp only [List.map_cons, List.mem_cons]
      rw [← h]
      tauto
    · rw [if_neg h]
      simp only [List.map_cons, List.mem_cons]
      rw [ih]
      tauto

lemma mem_matchedKeysOf (alignment : List Triple) (a : Nat) :
    a ∈ matchedKeysOf alignment ↔ ∃ p s, ((some a, some p, s) : Triple) ∈ alignment := by
  unfold matchedKeysOf
  rw [List.mem_filterMap]
  constructor
  · rintro ⟨t, ht, he⟩
    obtain ⟨o1, o2, s0⟩ := t
    cases o1 <;> cases o2 <;> simp_all
    exact ⟨_, _, ht⟩
  · rintro ⟨p, s, hs⟩
    exact ⟨(some a, some p, s), hs, rfl⟩

lemma matchMapFold_keys (ts : List Triple) :
    ∀ (acc : List (Nat × Nat)) (a : Nat),
      (a ∈ (ts.foldl (fun acc t =>
        match t with
        | (some a, some p, _) => assocSet acc a p
        | _ => acc) acc).map (·.1)) ↔ a ∈ acc.map (·.1) ∨ a ∈ matchedKeysOf ts := by
  induction ts with
  | nil => intro acc a; simp [matchedKeysOf]
  | cons t ts ih =>
    intro acc a
    obtain ⟨o1, o2, s0⟩ := t
    rw [List.foldl_cons]
    cases o1 with
    | none =>
      rw [ih]
      simp [matchedKeysOf, List.filterMap_cons]
    | some a0 =>
      cases o2 with
      | none =>
        rw [ih]
        simp [matchedKeysOf, List.filterMap_cons]
      | some p0 =>
        rw [ih, mem_keys_assocSet]
        simp only [matchedKeysOf, List.filterMap_cons, List.mem_cons]
        tauto

lemma matchMapFold_get_notin (ts : List Triple) :
    ∀ (acc : List (Nat × Nat)) (a : Nat), a ∉ matchedKeysOf ts →
      assocGet (ts.foldl (fun acc t =>
        match t with
        | (some a, some p, _) => assocSet acc a p
        | _ => acc) acc) a = assocGet acc a := by
  induction ts with
  | nil => intro acc a _; rfl
  | cons t ts ih =>
    intro acc a ha
    obtain ⟨o1, o2, s0⟩ := t
    rw [List.foldl_cons]
    cases o1 with
    | none =>
      refine ih acc a ?_
      simpa [matchedKeysOf, List.filterMap_cons] using ha
    | some a0 =>
      cases o2 with
      | none =>
        refine ih acc a ?_
        simpa [matchedKeysOf, List.filterMap_cons] using ha
      | some p0 =>
        simp only [matchedKeysOf, List.filterMap_cons] at ha
        rw [List.mem_cons, not_or] at ha
        rw [ih _ a ha.2, assocGet_assocSet_ne _ _ _ _ (fun h => ha.1 h.symm)]

lemma matchMapFold_get_mem (ts : List Triple) (hfun : (matchedKeysOf ts).Nodup) :
    ∀ (acc : List (Nat × Nat)) (a p : Nat) (s : PyQ),
      ((some a, some p, s) : Triple) ∈ ts →
      assocGet (ts.foldl (fun acc t =>
        match t with
        | (some a, some p, _) => assocSet acc a p
        | _ => acc) acc) a = some p := by
  induction ts with
  | nil => intro acc a p s h; simp at h
  | cons t ts ih =>
    intro acc a p s hmem
    obtain ⟨o1, o2, s0⟩ := t
    rw [List.mem_cons] at hmem
    rw [List.foldl_cons]
    cases o1 with
    | none =>
      rcases hmem with he | hmem
      · exact absurd he (by simp)
      · exact ih (by simpa [matchedKeysOf, List.filterMap_cons] using hfun) acc a p s hmem
    | some a0 =>
      cases o2 with
      | none =>
        rcases hmem with he | hmem
        · exact absurd he (by simp)
        · exact ih (by simpa [matchedKeysOf, List.filterMap_cons] using hfun) acc a p s hmem
      | some p0 =>
        have hfun' : a0 ∉ matchedKeysOf ts ∧ (matchedKeysOf ts).Nodup := by
          simpa [matchedKeysOf, List.filterMap_cons] using hfun
        rcases hmem with he | hmem
        · simp only [Prod.mk.injEq, Option.some.injEq] at he
          obtain ⟨h1, h2, -⟩ := he
          subst h1
          subst h2
          rw [matchMapFold_get_notin ts _ a hfun'.1, assocGet_assocSet_self]
        · exact ih hfun'.2 _ a p s hmem

lemma toRemove_fold_mem (condB : Nat → Bool) (R : Nat → List Nat) :
    ∀ (keys acc : List Nat) (g : Nat),
      (g ∈ keys.foldl (fun acc a =>
        if condB a = true then (R a).foldl insertUnique acc else acc) acc) ↔
        g ∈ acc ∨ ∃ a ∈ keys, condB a = true ∧ g ∈ R a := by
  intro keys
  induction keys with
  | nil => intro acc g; simp
  | cons k ks ih =>
    intro acc g
    rw [List.foldl_cons]
    by_cases hc : condB k = true
    · rw [if_pos hc, ih, mem_foldl_insertUnique]
      simp only [List.mem_cons]
      aesop
    · rw [if_neg hc, ih]
      simp only [List.mem_cons]
      aesop

lemma toRemove_fold_nodup (condB : Nat → Bool) (R : Nat → List Nat) :
    ∀ (keys acc : List Nat), acc.Nodup →
      (keys.foldl (fun acc a =>
        if condB a = true then (R a).foldl insertUnique acc else acc) acc).Nodup := by
  intro keys
  induction keys with
  | nil => intro acc h; exact h
  | cons k ks ih =>
    intro acc h
    rw [List.foldl_cons]
    by_cases hc : condB k = true
    · rw [if_pos hc]
      exact ih _ (nodup_foldl_insertUnique _ _ h)
    · rw [if_neg hc]
      exact ih _ h

lemma compoundCondBool_iff (pt : List ProvTok) (an : List String) (gaps : List Nat)
    (mm : List (Nat × Nat)) (a p : Nat) (hget : assocGet mm a = some p) :
    compoundCondBool pt an gaps mm a = true ↔
      compoundConditions pt an gaps a p := by
  unfold compoundCondBool compoundConditions
  rw [hget]
  dsimp only [Option.getD_some]
  split_ifs <;>
    first
      | (simp only [Bool.false_eq_true, false_iff]
         rintro ⟨hc1, hc2, hc3, hc4⟩
         first | omega | exact hc2 (by assumption))
      | (constructor
         · intro hb
           refine ⟨by omega, by assumption, by omega, hb⟩
         · rintro ⟨-, -, -, hb⟩
           exact hb)

lemma removeCompoundFragments_eq (segs : List Segment) (aw : List (Nat × Nat))
    (an : List String) (al : List Triple) (pt : List ProvTok) :
    removeCompoundFragments segs aw an al pt =
      (if (List.insertionSort (· ≤ ·) ((matchMapOf al).map (·.1))).foldl
          (fun acc a =>
            if compoundCondBool pt an (gapIndicesOf al) (matchMapOf al) a then
              (gapRunBefore (gapIndicesOf al) a).foldl insertUnique acc
            else acc) [] = [] then (segs, [])
       else (((segs.enum).map (fun it =>
          if List.insertionSort (· ≥ ·)
              ((((List.insertionSort (· ≤ ·) ((matchMapOf al).map (·.1))).foldl
                (fun acc a =>
                  if compoundCondBool pt an (gapIndicesOf al) (matchMapOf al) a then
                    (gapRunBefore (gapIndicesOf al) a).foldl insertUnique acc
                  else acc) []).filter (fun f => (aw.getD f (0, 0)).1 = it.1)).map
                (fun f => (aw.getD f (0, 0)).2)) = [] then it.2
          else
            if it.2.text.isSome then
              { it.2 with
                words := (List.insertionSort (· ≥ ·)
                  ((((List.insertionSort (· ≤ ·) ((matchMapOf al).map (·.1))).foldl
                    (fun acc a =>
                      if compoundCondBool pt an (gapIndicesOf al) (matchMapOf al) a then
                        (gapRunBefore (gapIndicesOf al) a).foldl insertUnique acc
                      else acc) []).filter (fun f => (aw.getD f (0, 0)).1 = it.1)).map
                    (fun f => (aw.getD f (0, 0)).2))).foldl removeAtIdx it.2.words,
                text := some (joinSpace (((List.insertionSort (· ≥ ·)
                  ((((List.insertionSort (· ≤ ·) ((matchMapOf al).map (·.1))).foldl
                    (fun acc a =>
                      if compoundCondBool pt an (gapIndicesOf al) (matchMapOf al) a then
                        (gapRunBefore (gapIndicesOf al) a).foldl insertUnique acc
                      else acc) []).filter (fun f => (aw.getD f (0, 0)).1 = it.1)).map
                    (fun f => (aw.getD f (0, 0)).2))).foldl removeAtIdx
                      it.2.words).map (·.word))) }
            else
              { it.2 with
                words := (List.insertionSort (· ≥ ·)
                  ((((List.insertionSort (· ≤ ·) ((matchMapOf al).map (·.1))).foldl
                    (fun acc a =>
                      if compoundCondBool pt an (gapIndicesOf al) (matchMapOf al) a then
                        (gapRunBefore (gapIndicesOf al) a).foldl insertUnique acc
                      else acc) []).filter (fun f => (aw.getD f (0, 0)).1 = it.1)).map
                    (fun f => (aw.getD f (0, 0)).2))).foldl removeAtIdx it.2.words })).filter
            (fun s => s.words ≠ []),
          (List.insertionSort (· ≤ ·) ((matchMapOf al).map (·.1))).foldl
            (fun acc a =>
              if compoundCondBool pt an (gapIndicesOf al) (matchMapOf al) a then
                (gapRunBefore (gapIndicesOf al) a).foldl insertUnique acc
              else acc) [])) := by
  unfold removeCompoundFragments
  rfl

lemma removed_mem_iff (segs : List Segment) (aw : List (Nat × Nat)) (an : List String)
    (al : List Triple) (pt : List ProvTok) (hfun : (matchedKeysOf al).Nodup) (g : Nat) :
    g ∈ (removeCompoundFragments segs aw an al pt).2 ↔
      ∃ a p s, ((some a, some p, s) : Triple) ∈ al ∧
        compoundConditions pt an (gapIndicesOf al) a p ∧
        g ∈ gapRunBefore (gapIndicesOf al) a := by
  have hT : ∀ x : Nat,
      (x ∈ (List.insertionSort (· ≤ ·) ((matchMapOf al).map (·.1))).foldl
        (fun acc a =>
          if compoundCondBool pt an (gapIndicesOf al) (matchMapOf al) a then
            (gapRunBefore (gapIndicesOf al) a).foldl insertUnique acc
          else acc) []) ↔
      ∃ a p s, ((some a, some p, s) : Triple) ∈ al ∧
        compoundConditions pt an (gapIndicesOf al) a p ∧
        x ∈ gapRunBefore (gapIndicesOf al) a := by
    intro x
    rw [toRemove_fold_mem]
    simp only [List.not_mem_nil, false_or]
    constructor
    · rintro ⟨a, hak, hcond, hmem⟩
      have hamk : a ∈ matchedKeysOf al := by
        have := (List.perm_insertionSort (· ≤ ·) ((matchMapOf al).map (·.1))).mem_iff.mp hak
        rw [matchMapOf, matchMapFold_keys] at this
        simpa using this
      obtain ⟨p, s, htrip⟩ := (mem_matchedKeysOf al a).mp hamk
      have hget : assocGet (matchMapOf al) a = some p := by
        unfold matchMapOf
        exact matchMapFold_get_mem al hfun [] a p s htrip
      exact ⟨a, p, s, htrip, (compoundCondBool_iff pt an _ _ a p hget).mp hcond, hmem⟩
    · rintro ⟨a, p, s, htrip, hcond, hmem⟩
      have hget : assocGet (matchMapOf al) a = some p := by
        unfold matchMapOf
        exact matchMapFold_get_mem al hfun [] a p s htrip
      refine ⟨a, ?_, (compoundCondBool_iff pt an _ _ a p hget).mpr hcond, hmem⟩
      rw [(List.perm_insertionSort (· ≤ ·) ((matchMapOf al).map (·.1))).mem_iff]
      rw [matchMapOf, matchMapFold_keys]
      exact Or.inr ((mem_matchedKeysOf al a).mpr ⟨p, s, htrip⟩)
  rw [removeCompoundFragments_eq]
  split
  · rename_i hTe
    simp only [List.not_mem_nil, false_iff]
    rintro ⟨a, p, s, htrip, hcond, hmem⟩
    have := (hT g).mpr ⟨a, p, s, htrip, hcond, hmem⟩
    rw [hTe] at this
    simp at this
  · exact hT g

lemma any_eq_of_perm {l1 l2 : List Nat} (h : List.Perm l1 l2) (f : Nat → Bool) :
    l1.any f = l2.any f := by
  cases hb : l2.any f
  · simp only [List.any_eq_false] at hb ⊢
    intro x hx
    exact hb x (h.mem_iff.mp hx)
  · simp only [List.any_eq_true] at hb ⊢
    obtain ⟨x, hx, hfx⟩ := hb
    exact ⟨x, h.mem_iff.mpr hx, hfx⟩

lemma filterIdxGo_all_true (p : Nat → Bool) :
    ∀ (ws : List α) (n : Nat), (∀ i, n ≤ i → p i = true) → filterIdxGo p n ws = ws := by
  intro ws
  induction ws with
  | nil => intro n _; rfl
  | cons w r ih =>
    intro n h
    unfold filterIdxGo
    rw [if_pos (h n le_rfl), ih (n + 1) (fun i hi => h i (by omega))]

lemma filterIdxGo_removeAtIdx (p : Nat → Bool) :
    ∀ (ws : List α) (n x : Nat), (∀ i, n + x ≤ i → p i = true) →
      filterIdxGo p n (removeAtIdx ws x) =
        filterIdxGo (fun i => p i && ! decide (i = n + x)) n ws := by
  intro ws
  induction ws with
  | nil => intro n x _; rfl
  | cons w r ih =>
    intro n x h
    cases x with
    | zero =>
      simp only [removeAtIdx, filterIdxGo]
      rw [filterIdxGo_all_true p r n (fun i hi => h i (by omega))]
      rw [if_neg (by simp : ¬ ((p n && ! decide (n = n + 0)) = true))]
      symm
      apply filterIdxGo_all_true
      intro i hi
      have hp := h i (by omega)
      have hne : decide (i = n + 0) = false := by
        simp only [decide_eq_false_iff_not]
        omega
      rw [hp, hne]
      rfl
    | succ y =>
      simp only [removeAtIdx, filterIdxGo]
      have hq : (p n && ! decide (n = n + (y + 1))) = p n := by
        have hd : decide (n = n + (y + 1)) = false := by
          simp only [decide_eq_false_iff_not]
          omega
        rw [hd]
        simp
      simp only [hq]
      have hih := ih (n + 1) y (fun i hi => h i (by omega))
      have hnx : n + 1 + y = n + (y + 1) := by omega
      rw [hnx] at hih
      rw [hih]

lemma foldl_removeAtIdx_eq_filterIdx :
    ∀ (l : List Nat), l.Pairwise (· > ·) → ∀ (ws : List α),
      l.foldl removeAtIdx ws = filterIdxGo (fun i => ! l.any (fun v => v = i)) 0 ws := by
  intro l
  induction l with
  | nil =>
    intro _ ws
    simp only [List.foldl_nil]
    exact (filterIdxGo_all_true _ ws 0 (fun i _ => rfl)).symm
  | cons x r ih =>
    intro hl ws
    rw [List.foldl_cons, ih (List.Pairwise.of_cons hl) (removeAtIdx ws x)]
    have hcond : ∀ i, 0 + x ≤ i → (! r.any (fun v => decide (v = i))) = true := by
      intro i hi
      cases hv : r.any (fun v => decide (v = i)) with
      | false => rfl
      | true =>
        exfalso
        obtain ⟨v, hvr, hvd⟩ := List.any_eq_true.mp hv
        have h1 : v = i := of_decide_eq_true hvd
        have h2 := List.rel_of_pairwise_cons hl hvr
        omega
    rw [filterIdxGo_removeAtIdx _ ws 0 x hcond]
    congr 1
    funext i
    simp only [List.any_cons, Bool.not_or, Nat.zero_add]
    have hxi : decide (x = i) = decide (i = x) := by
      by_cases hix : i = x
      · subst hix; rfl
      · rw [decide_eq_false hix, decide_eq_false (fun hh => hix hh.symm)]
    rw [hxi, Bool.and_comm]

lemma removeCompoundFragments_eq2 (segs : List Segment) (aw : List (Nat × Nat))
    (an : List String) (al : List Triple) (pt : List ProvTok) :
    removeCompoundFragments segs aw an al pt =
      if toRemoveOf an al pt = [] then (segs, [])
      else (((segs.enum).map (codeSegDelete aw (toRemoveOf an al pt))).filter
        (fun s => s.words ≠ []), toRemoveOf an al pt) := by
  unfold removeCompoundFragments toRemoveOf codeSegDelete
  rfl

lemma removeCompoundFragments_snd (segs : List Segment) (aw : List (Nat × Nat))
    (an : List String) (al : List Triple) (pt : List ProvTok) :
    (removeCompoundFragments segs aw an al pt).2 = toRemoveOf an al pt := by
  rw [removeCompoundFragments_eq2]
  split_ifs with h
  · exact h.symm
  · rfl

lemma toRemoveOf_nodup (an : List String) (al : List Triple) (pt : List ProvTok) :
    (toRemoveOf an al pt).Nodup := by
  unfold toRemoveOf
  exact toRemove_fold_nodup _ _ _ [] List.nodup_nil

lemma codeSegDelete_eq_deleteSpecSeg (aw : List (Nat × Nat)) (T : List Nat)
    (hnd : T.Nodup) (hb : ∀ f ∈ T, f < aw.length) (hw : aw.Nodup) (it : Nat × Segment) :
    codeSegDelete aw T it = deleteSpecSeg aw T it := by
  unfold codeSegDelete deleteSpecSeg
  have hperm : List.Perm (List.insertionSort (· ≥ ·)
      ((T.filter (fun f => (aw.getD f (0, 0)).1 = it.1)).map (fun f => (aw.getD f (0, 0)).2)))
      ((T.filter (fun f => (aw.getD f (0, 0)).1 = it.1)).map (fun f => (aw.getD f (0, 0)).2)) :=
    List.perm_insertionSort _ _
  have hnil : (List.insertionSort (· ≥ ·)
      ((T.filter (fun f => (aw.getD f (0, 0)).1 = it.1)).map
        (fun f => (aw.getD f (0, 0)).2)) = []) ↔
      T.filter (fun f => (aw.getD f (0, 0)).1 = it.1) = [] := by
    constructor
    · intro h
      rw [h] at hperm
      exact List.map_eq_nil.mp hperm.symm.eq_nil
    · intro h
      rw [h]
      rfl
  by_cases hre : T.filter (fun f => (aw.getD f (0, 0)).1 = it.1) = []
  · rw [if_pos (hnil.mpr hre), if_pos hre]
  · rw [if_neg (fun hc => hre (hnil.mp hc)), if_neg hre]
    have hinj : ∀ x ∈ T.filter (fun f => (aw.getD f (0, 0)).1 = it.1),
        ∀ y ∈ T.filter (fun f => (aw.getD f (0, 0)).1 = it.1),
        (aw.getD x (0, 0)).2 = (aw.getD y (0, 0)).2 → x = y := by
      intro x hx y hy hxy
      have hx1 := List.mem_filter.mp hx
      have hy1 := List.mem_filter.mp hy
      have hxT : x < aw.length := hb x hx1.1
      have hyT : y < aw.length := hb y hy1.1
      have hpx : (aw.getD x (0, 0)).1 = it.1 := by simpa using hx1.2
      have hpy : (aw.getD y (0, 0)).1 = it.1 := by simpa using hy1.2
      have heq : aw.getD x (0, 0) = aw.getD y (0, 0) := Prod.ext (hpx.trans hpy.symm) hxy
      rw [List.getD_eq_get _ _ hxT, List.getD_eq_get _ _ hyT] at heq
      have := (List.Nodup.get_inj_iff hw).mp heq
      exact congrArg Fin.val this
    haveI : IsTotal Nat (· ≥ ·) := ⟨fun a b => le_total b a⟩
    haveI : IsTrans Nat (· ≥ ·) := ⟨fun _ _ _ h1 h2 => le_trans h2 h1⟩
    have hsp : (List.insertionSort (· ≥ ·)
        ((T.filter (fun f => (aw.getD f (0, 0)).1 = it.1)).map
          (fun f => (aw.getD f (0, 0)).2))).Pairwise (· ≥ ·) :=
      List.sorted_insertionSort _ _
    have hmapnd : ((T.filter (fun f => (aw.getD f (0, 0)).1 = it.1)).map
        (fun f => (aw.getD f (0, 0)).2)).Nodup :=
      List.Nodup.map_on hinj (hnd.filter _)
    have hsortnd := hperm.nodup_iff.mpr hmapnd
    have hnp : (List.insertionSort (· ≥ ·)
        ((T.filter (fun f => (aw.getD f (0, 0)).1 = it.1)).map
          (fun f => (aw.getD f (0, 0)).2))).Pairwise (· ≠ ·) := hsortnd
    have hgt : (List.insertionSort (· ≥ ·)
        ((T.filter (fun f => (aw.getD f (0, 0)).1 = it.1)).map
          (fun f => (aw.getD f (0, 0)).2))).Pairwise (· > ·) :=
      (hsp.and hnp).imp (fun hab => by obtain ⟨h1, h2⟩ := hab; omega)
    have hws := foldl_removeAtIdx_eq_filterIdx _ hgt it.2.words
    rw [hws]
    have hpred : (fun i => ! (List.insertionSort (· ≥ ·)
        ((T.filter (fun f => (aw.getD f (0, 0)).1 = it.1)).map
          (fun f => (aw.getD f (0, 0)).2))).any (fun v => v = i)) =
        (fun wi => ! (T.filter (fun f => (aw.getD f (0, 0)).1 = it.1)).any
          (fun f => (aw.getD f (0, 0)).2 = wi)) := by
      funext i
      rw [any_eq_of_perm hperm, List.any_map]
      rfl
    rw [hpred]

lemma removeCompoundFragments_fst (segs : List Segment) (aw : List (Nat × Nat))
    (an : List String) (al : List Triple) (pt : List ProvTok) (hw : aw.Nodup)
    (hb : ∀ f ∈ toRemoveOf an al pt, f < aw.length) :
    (removeCompoundFragments segs aw an al pt).1 =
      if (removeCompoundFragments segs aw an al pt).2 = [] then segs
      else ((segs.enum).map
        (deleteSpecSeg aw (removeCompoundFragments segs aw an al pt).2)).filter
          (fun s => s.words ≠ []) := by
  rw [removeCompoundFragments_snd, removeCompoundFragments_eq2]
  split_ifs with h
  · rfl
  · dsimp only
    congr 1
    apply List.map_congr_left
    intro it _
    exact codeSegDelete_eq_deleteSpecSeg aw _ (toRemoveOf_nodup an al pt) hb hw it

lemma adjustFold (removed rs : List Nat) :
    ∀ (lbs acc : List Nat),
      lbs.foldl (fun adjusted lb =>
        if lb ∈ removed then adjusted
        else adjusted ++ [lb - (rs.filter (fun r => r < lb)).length]) acc =
      acc ++ (lbs.filter (fun lb => ! decide (lb ∈ removed))).map
        (fun lb => lb - (rs.filter (fun r => r < lb)).length) := by
  intro lbs
  induction lbs with
  | nil => intro acc; simp
  | cons x t ih =>
    intro acc
    rw [List.foldl_cons, List.filter_cons]
    by_cases hx : x ∈ removed
    · rw [if_pos hx]
      have hd : (! decide (x ∈ removed)) = false := by simp [hx]
      rw [hd]
      simp only [Bool.false_eq_true, if_false]
      exact ih acc
    · rw [if_neg hx]
      have hd : (! decide (x ∈ removed)) = true := by simp [hx]
      rw [hd, if_pos rfl, List.map_cons, ih (acc ++ [x - (rs.filter (fun r => r < x)).length]),
        List.append_assoc, List.singleton_append]

lemma adjustLineBreaks_eq (lbs removed : List Nat) :
    adjustLineBreaks lbs removed =
      (lbs.filter (fun lb => ! decide (lb ∈ removed))).map
        (fun lb => lb - removed.countP (fun r => decide (r < lb))) := by
  unfold adjustLineBreaks
  split_ifs with h
  · subst h
    simp
  · dsimp only
    rw [adjustFold removed (List.insertionSort (· ≤ ·) removed) lbs [], List.nil_append]
    congr 1
    funext lb
    congr 1
    rw [← List.countP_eq_length_filter]
    exact (List.perm_insertionSort _ removed).countP_eq _

/-- C4: compound-fragment removal removes exactly the flat indices of the
gap run (unaligned ASR words) directly before an aligned ASR word at which
the target length, concat length and SequenceMatcher-ratio conditions
hold; the gap indices are exactly the ASR sides of the unaligned triples;
afterwards the per-segment word deletion is performed, segments left with
no words are dropped, and line-break indices at removed positions are
dropped while the others are shifted down by the number of removed
positions below them.  The hypotheses hold for every alignment produced by
the engine: each ASR index is matched at most once,
`asr_words` lists distinct `(segment, word)` positions, and every removed
flat index is in range. -/
theorem c4_compound_removal (segs : List Segment) (aw : List (Nat × Nat))
    (an : List String) (al : List Triple) (pt : List ProvTok) (lbs : List Nat)
    (hfun : (matchedKeysOf al).Nodup) (hw : aw.Nodup)
    (hb : ∀ f ∈ (removeCompoundFragments segs aw an al pt).2, f < aw.length) :
    (∀ g, g ∈ (removeCompoundFragments segs aw an al pt).2 ↔
      ∃ a p s, ((some a, some p, s) : Triple) ∈ al ∧
        compoundConditions pt an (gapIndicesOf al) a p ∧
        g ∈ gapRunBefore (gapIndicesOf al) a) ∧
    (∀ g, g ∈ gapIndicesOf al ↔ ∃ s, ((some g, none, s) : Triple) ∈ al) ∧
    ((removeCompoundFragments segs aw an al pt).1 =
      if (removeCompoundFragments segs aw an al pt).2 = [] then segs
      else ((segs.enum).map
        (deleteSpecSeg aw (removeCompoundFragments segs aw an al pt).2)).filter
          (fun s => s.words ≠ [])) ∧
    (adjustLineBreaks lbs (removeCompoundFragments segs aw an al pt).2 =
      (lbs.filter
        (fun lb => ! decide (lb ∈ (removeCompoundFragments segs aw an al pt).2))).map
          (fun lb => lb - (removeCompoundFragments segs aw an al pt).2.countP
            (fun r => decide (r < lb)))) := by
  rw [removeCompoundFragments_snd] at hb
  exact ⟨fun g => removed_mem_iff segs aw an al pt hfun g,
    fun g => mem_gapIndicesOf al g,
    removeCompoundFragments_fst segs aw an al pt hw hb,
    adjustLineBreaks_eq lbs _⟩

set_option maxRecDepth 8192 in
/-- Witness for C4 at a two-word transcript whose first word is an
unaligned fragment of the eight-character reference word. -/
theorem c4_compound_removal_witness :
    ((matchedKeysOf c4Al).Nodup ∧ c4Aw.Nodup ∧
      (∀ f ∈ (removeCompoundFragments c4Segs c4Aw c4An c4Al c4Pt).2, f < c4Aw.length)) ∧
    ((∀ g, g ∈ (removeCompoundFragments c4Segs c4Aw c4An c4Al c4Pt).2 ↔
      ∃ a p s, ((some a, some p, s) : Triple) ∈ c4Al ∧
        compoundConditions c4Pt c4An (gapIndicesOf c4Al) a p ∧
        g ∈ gapRunBefore (gapIndicesOf c4Al) a) ∧
    (∀ g, g ∈ gapIndicesOf c4Al ↔ ∃ s, ((some g, none, s) : Triple) ∈ c4Al) ∧
    ((removeCompoundFragments c4Segs c4Aw c4An c4Al c4Pt).1 =
      if (removeCompoundFragments c4Segs c4Aw c4An c4Al c4Pt).2 = [] then c4Segs
      else ((c4Segs.enum).map
        (deleteSpecSeg c4Aw (removeCompoundFragments c4Segs c4Aw c4An c4Al c4Pt).2)).filter
          (fun s => s.words ≠ [])) ∧
    (adjustLineBreaks c4Lbs (removeCompoundFragments c4Segs c4Aw c4An c4Al c4Pt).2 =
      (c4Lbs.filter
        (fun lb => ! decide (lb ∈ (removeCompoundFragments c4Segs c4Aw c4An c4Al c4Pt).2))).map
          (fun lb => lb - (removeCompoundFragments c4Segs c4Aw c4An c4Al c4Pt).2.countP
            (fun r => decide (r < lb))))) :=
  ⟨⟨by decide, by decide, by decide⟩,
    c4_compound_removal c4Segs c4Aw c4An c4Al c4Pt c4Lbs (by decide) (by decide) (by decide)⟩

/-- Witness for C2 at a one-word transcript and a one-word reference. -/
theorem c2_quality_and_threshold_witness :
    PyQ.beq
        (alignProviderTokens (asrNormalizedOf [{ words := [{ word := "hello" }] }])
          (tokenizeProvider ["hello"])).2
        (PyQ.fdiv
          ⟨(goodPairCount (alignProviderTokens
              (asrNormalizedOf [{ words := [{ word := "hello" }] }])
              (tokenizeProvider ["hello"])).1 : Int), 1⟩
          ⟨(max (asrNormalizedOf [{ words := [{ word := "hello" }] }]).length
              (tokenizeProvider ["hello"]).length : Int), 1⟩) = true ∧
      (PyQ.blt (alignProviderTokens (asrNormalizedOf [{ words := [{ word := "hello" }] }])
          (tokenizeProvider ["hello"])).2 ⟨2, 5⟩ = true →
        rewriteWithProvider [{ words := [{ word := "hello" }] }]
            (asrWordsOf [{ words := [{ word := "hello" }] }])
            (alignProviderTokens (asrNormalizedOf [{ words := [{ word := "hello" }] }])
              (tokenizeProvider ["hello"])).1
            (tokenizeProvider ["hello"])
            (alignProviderTokens (asrNormalizedOf [{ words := [{ word := "hello" }] }])
              (tokenizeProvider ["hello"])).2 = [{ words := [{ word := "hello" }] }] ∧
          extractLineBreaksFromAlignment
            (alignProviderTokens (asrNormalizedOf [{ words := [{ word := "hello" }] }])
              (tokenizeProvider ["hello"])).1
            (tokenizeProvider ["hello"])
            (alignProviderTokens (asrNormalizedOf [{ words := [{ word := "hello" }] }])
              (tokenizeProvider ["hello"])).2 = [] ∧
          (correctLyricsWithReference [{ words := [{ word := "hello" }] }] ["hello"]).2.1 =
            [] ∧
          (correctLyricsWithReference [{ words := [{ word := "hello" }] }]
              ["hello"]).2.2.applied = some false ∧
          (correctLyricsWithReference [{ words := [{ word := "hello" }] }]
              ["hello"]).2.2.reason = some ("low_quality")) ∧
      (PyQ.ble ⟨2, 5⟩ (alignProviderTokens
          (asrNormalizedOf [{ words := [{ word := "hello" }] }])
          (tokenizeProvider ["hello"])).2 = true →
        (correctLyricsWithReference [{ words := [{ word := "hello" }] }]
            ["hello"]).2.2.applied = some true) :=
  c2_quality_and_threshold [{ words := [{ word := "hello" }] }] ["hello"]
    (by decide) (by decide) (by decide)

lemma headD_eq_getD (l : List α) (d : α) : l.headD d = l.getD 0 d := by
  cases l <;> rfl

lemma getD_tail (l : List α) (t : Nat) (d : α) : l.tail.getD t d = l.getD (t + 1) d := by
  cases l <;> rfl

lemma gapRowFrom_getD_nwScore (an pn : List String) :
    ∀ (j m c : Nat), j ≤ m →
      (gapRowFrom (nwScore an pn 0 c) m).getD j ⟨0, 1⟩ = nwScore an pn 0 (c + j) := by
  intro j
  induction j with
  | zero =>
    intro m c _
    cases m with
    | zero => simp [gapRowFrom]
    | succ m2 => simp [gapRowFrom]
  | succ j2 ih =>
    intro m c hj
    cases m with
    | zero => omega
    | succ m2 =>
      have hstep : nwScore an pn 0 c + GAP_PENALTY = nwScore an pn 0 (c + 1) := by
        simp only [nwScore]
      have hred : (gapRowFrom (nwScore an pn 0 c) (m2 + 1)).getD (j2 + 1) ⟨0, 1⟩ =
          (gapRowFrom (nwScore an pn 0 c + GAP_PENALTY) m2).getD j2 ⟨0, 1⟩ := rfl
      rw [hred, hstep, ih m2 (c + 1) (by omega)]
      congr 1
      omega

lemma gapRow_spec (an pn : List String) :
    ∀ j, j ≤ pn.length →
      (gapRowFrom ⟨0, 1⟩ pn.length).getD j ⟨0, 1⟩ = nwScore an pn 0 j := by
  intro j hj
  have h00 : (⟨0, 1⟩ : PyQ) = nwScore an pn 0 0 := by simp only [nwScore]
  nth_rewrite 1 [h00]
  rw [gapRowFrom_getD_nwScore an pn j pn.length 0 hj]
  congr 1
  omega

lemma dpRowGo_spec (an pn : List String) (i : Nat) :
    ∀ (bs : List String) (c : Nat) (diag : PyQ) (prevRest : List PyQ) (left : PyQ),
      (∀ t, bs.getD t "" = pn.getD (c + t) "") →
      c + bs.length = pn.length →
      diag = nwScore an pn i c →
      (∀ t, c + 1 + t ≤ pn.length → prevRest.getD t ⟨0, 1⟩ = nwScore an pn i (c + 1 + t)) →
      left = nwScore an pn (i + 1) c →
      ∀ k, k < bs.length →
        (dpRowGo (an.getD i "") bs diag prevRest left).getD k ⟨0, 1⟩ =
          nwScore an pn (i + 1) (c + 1 + k) := by
  intro bs
  induction bs with
  | nil =>
    intro c diag prevRest left _ _ _ _ _ k hk
    simp at hk
  | cons bj bs2 ih =>
    intro c diag prevRest left hbs hlen hdiag hprev hleft k hk
    have hbj : bj = pn.getD c "" := by simpa using hbs 0
    have hc1 : c + 1 ≤ pn.length := by
      simp only [List.length_cons] at hlen
      omega
    have hup : prevRest.headD ⟨0, 1⟩ = nwScore an pn i (c + 1) := by
      rw [headD_eq_getD]
      simpa using hprev 0 (by omega)
    have hv : pyMax (pyMax (diag + matchScoreOf (wordSimilarity (an.getD i "") bj))
          (prevRest.headD ⟨0, 1⟩ + GAP_PENALTY)) (left + GAP_PENALTY) =
        nwScore an pn (i + 1) (c + 1) := by
      rw [hbj, hdiag, hup, hleft]
      simp only [nwScore]
    cases k with
    | zero =>
      simp only [dpRowGo, List.getD_cons_zero]
      exact hv
    | succ t =>
      simp only [dpRowGo, List.getD_cons_succ]
      have hres := ih (c + 1) (prevRest.headD ⟨0, 1⟩) prevRest.tail
        (pyMax (pyMax (diag + matchScoreOf (wordSimilarity (an.getD i "") bj))
          (prevRest.headD ⟨0, 1⟩ + GAP_PENALTY)) (left + GAP_PENALTY))
        (fun t2 => by
          have hb2 := hbs (t2 + 1)
          rw [List.getD_cons_succ] at hb2
          rw [hb2]
          congr 1
          omega)
        (by simp only [List.length_cons] at hlen; omega)
        hup
        (fun t2 ht2 => by
          rw [getD_tail]
          have hp2 := hprev (t2 + 1) (by omega)
          rw [hp2]
          congr 1
          omega)
        hv
        t
        (by simp only [List.length_cons] at hk; omega)
      rw [hres]
      congr 1
      omega

lemma dpNextRow_spec (an pn : List String) (i : Nat) (prev : List PyQ)
    (hprev : ∀ j, j ≤ pn.length → prev.getD j ⟨0, 1⟩ = nwScore an pn i j) :
    ∀ j, j ≤ pn.length →
      (dpNextRow pn prev (an.getD i "")).getD j ⟨0, 1⟩ = nwScore an pn (i + 1) j := by
  have h0 : prev.headD ⟨0, 1⟩ = nwScore an pn i 0 := by
    rw [headD_eq_getD]
    exact hprev 0 (by omega)
  intro j hj
  cases j with
  | zero =>
    simp only [dpNextRow, List.getD_cons_zero]
    rw [h0]
    simp only [nwScore]
  | succ k =>
    simp only [dpNextRow, List.getD_cons_succ]
    have hres := dpRowGo_spec an pn i pn 0 (prev.headD ⟨0, 1⟩) prev.tail
      (prev.headD ⟨0, 1⟩ + GAP_PENALTY)
      (fun t => by rw [Nat.zero_add])
      (Nat.zero_add _)
      (by rw [h0])
      (fun t ht => by
        rw [getD_tail]
        have hp2 := hprev (t + 1) (by omega)
        rw [hp2]
        congr 1
        omega)
      (by rw [h0]; simp only [nwScore])
      k
      (by omega)
    rw [hres]
    congr 1
    omega

lemma dpRows_spec (an pn : List String) :
    ∀ (as2 : List String) (r : Nat) (prev : List PyQ),
      (∀ t, as2.getD t "" = an.getD (r + t) "") →
      r + as2.length = an.length →
      (∀ j, j ≤ pn.length → prev.getD j ⟨0, 1⟩ = nwScore an pn r j) →
      ∀ i j, i ≤ as2.length → j ≤ pn.length →
        ((dpRows pn prev as2).getD i []).getD j ⟨0, 1⟩ = nwScore an pn (r + i) j := by
  intro as2
  induction as2 with
  | nil =>
    intro r prev _ _ hprev i j hi hj
    have hi0 : i = 0 := by simpa using hi
    subst hi0
    simp only [dpRows, List.getD_cons_zero]
    exact hprev j hj
  | cons a at2 ih =>
    intro r prev has hlen hprev i j hi hj
    cases i with
    | zero =>
      simp only [dpRows, List.getD_cons_zero]
      exact hprev j hj
    | succ i2 =>
      simp only [dpRows, List.getD_cons_succ]
      have ha : a = an.getD r "" := by simpa using has 0
      have hnext : ∀ j2, j2 ≤ pn.length →
          (dpNextRow pn prev a).getD j2 ⟨0, 1⟩ = nwScore an pn (r + 1) j2 := by
        rw [ha]
        exact dpNextRow_spec an pn r prev hprev
      have hres := ih (r + 1) (dpNextRow pn prev a)
        (fun t => by
          have h2 := has (t + 1)
          rw [List.getD_cons_succ] at h2
          rw [h2]
          congr 1
          omega)
        (by simp only [List.length_cons] at hlen; omega)
        hnext i2 j (by simp only [List.length_cons] at hi; omega) hj
      rw [hres]
      congr 1
      omega

lemma dpGet_eq_nwScore (an pn : List String) (i j : Nat) (hi : i ≤ an.length)
    (hj : j ≤ pn.length) :
    dpGet (dpTable an pn) i j = nwScore an pn i j := by
  unfold dpGet dpTable
  have hres := dpRows_spec an pn an 0 (gapRowFrom ⟨0, 1⟩ pn.length)
    (fun t => by rw [Nat.zero_add]) (Nat.zero_add _) (gapRow_spec an pn) i j hi hj
  rw [hres, Nat.zero_add]

lemma tbGo_eq (an pn : List String) :
    ∀ (fuel i j : Nat) (acc : List Triple), i ≤ an.length → j ≤ pn.length →
      i + j ≤ fuel →
      tbGo an pn (dpTable an pn) fuel i j acc = acc ++ (nwTraceback an pn i j).reverse := by
  intro fuel
  induction fuel with
  | zero =>
    intro i j acc hi hj hf
    have hi0 : i = 0 := by omega
    have hj0 : j = 0 := by omega
    subst hi0
    subst hj0
    simp only [tbGo, nwTraceback, List.reverse_nil, List.append_nil]
  | succ fl ih =>
    intro i j acc hi hj hf
    cases i with
    | zero =>
      cases j with
      | zero =>
        simp only [tbGo, nwTraceback, List.reverse_nil, List.append_nil]
      | succ j2 =>
        simp only [tbGo]
        rw [ih 0 j2 _ (by omega) (by omega) (by omega)]
        simp only [nwTraceback, List.reverse_append, List.reverse_cons, List.reverse_nil,
          List.nil_append, List.append_assoc]
    | succ i2 =>
      cases j with
      | zero =>
        simp only [tbGo]
        simp only [dpGet_eq_nwScore an pn (i2 + 1) 0 hi (by omega),
          dpGet_eq_nwScore an pn i2 0 (by omega) (by omega)]
        have hcond : PyQ.beq (nwScore an pn (i2 + 1) 0)
            (nwScore an pn i2 0 + GAP_PENALTY) = true := by
          simp only [nwScore]
          exact PyQ.beq_refl _
        rw [if_pos hcond]
        rw [ih i2 0 _ (by omega) (by omega) (by omega)]
        simp only [nwTraceback, List.reverse_append, List.reverse_cons, List.reverse_nil,
          List.nil_append, List.append_assoc]
      | succ j2 =>
        simp only [tbGo]
        simp only [dpGet_eq_nwScore an pn (i2 + 1) (j2 + 1) hi hj,
          dpGet_eq_nwScore an pn i2 j2 (by omega) (by omega),
          dpGet_eq_nwScore an pn i2 (j2 + 1) (by omega) hj,
          dpGet_eq_nwScore an pn (i2 + 1) j2 hi (by omega)]
        simp only [nwTraceback]
        split_ifs with h1 h2
        · rw [ih i2 j2 _ (by omega) (by omega) (by omega)]
          simp only [List.reverse_append, List.reverse_cons, List.reverse_nil,
            List.nil_append, List.append_assoc]
        · rw [ih i2 (j2 + 1) _ (by omega) hj (by omega)]
          simp only [List.reverse_append, List.reverse_cons, List.reverse_nil,
            List.nil_append, List.append_assoc]
        · rw [ih (i2 + 1) j2 _ hi (by omega) (by omega)]
          simp only [List.reverse_append, List.reverse_cons, List.reverse_nil,
            List.nil_append, List.append_assoc]

/-- C1: for non-empty token lists, the alignment of `_align_provider_tokens`
equals the standard Needleman-Wunsch traceback (match/substitution score
`2·sim` when `sim ≥ 0.6` else `-1`, gap penalty `-0.5` on either side,
`(n+1)×(m+1)` DP fill, ties broken diagonal then up then left) over the ASR
tokens and the normalized reference tokens. -/
theorem c1_alignment_needleman_wunsch (an : List String) (pt : List ProvTok)
    (hn : an ≠ []) (hm : pt ≠ []) :
    (alignProviderTokens an pt).1 =
      nwTraceback an (pt.map (·.norm)) an.length pt.length := by
  unfold alignProviderTokens
  have hcond : ¬ (an.length = 0 ∨ pt.length = 0) := by
    rintro (h | h)
    · exact hn (List.length_eq_zero.mp h)
    · exact hm (List.length_eq_zero.mp h)
  rw [if_neg hcond]
  dsimp only
  have htb : (tbGo an (pt.map (·.norm)) (dpTable an (pt.map (·.norm)))
      (an.length + pt.length) an.length pt.length []).reverse =
      nwTraceback an (pt.map (·.norm)) an.length pt.length := by
    rw [tbGo_eq an (pt.map (·.norm)) (an.length + pt.length) an.length pt.length []
      le_rfl (by simp) (by omega)]
    rw [List.nil_append, List.reverse_reverse]
  split_ifs with h
  · exact htb
  · exact htb

/-- Witness for C1 at a one-word transcript and a one-token reference. -/
theorem c1_alignment_needleman_wunsch_witness :
    ((["hello"] : List String) ≠ [] ∧
      ([{ norm := "hello", raw := "hello", line := 0 }] : List ProvTok) ≠ []) ∧
    (alignProviderTokens ["hello"] [{ norm := "hello", raw := "hello", line := 0 }]).1 =
      nwTraceback ["hello"]
        (([{ norm := "hello", raw := "hello", line := 0 }] : List ProvTok).map (·.norm))
        (["hello"] : List String).length
        ([{ norm := "hello", raw := "hello", line := 0 }] : List ProvTok).length :=
  ⟨⟨by decide, by decide⟩,
    c1_alignment_needleman_wunsch ["hello"] [{ norm := "hello", raw := "hello", line := 0 }]
      (by decide) (by decide)⟩

end MelodAI
